import Mathlib

set_option maxRecDepth 8000

/-!
Verification development for the rust-recovery forensic file-recovery engine.

Shallow embedding conventions:
* Machine integers (`u8`, `u16`, `u32`, `u64`, `usize`) are modelled as `ℕ`.
  Where Rust performs a checked operation (`checked_add`, `checked_mul`) against
  `u64::MAX`, the model tests the same bound explicitly; where overflow is
  impossible because of earlier guards, a comment says so.
* `f32` values are modelled as `ℚ` (exact arithmetic).  `f32::sqrt` appears in
  one place (cosine similarity); it is passed as an explicit function parameter
  `sqrt : ℚ → ℚ`, so that universally quantified theorems hold for every
  possible square-root function, including the IEEE one.  `ratSqrt` below is a
  computable stand-in that agrees with `f32::sqrt` on perfect squares (IEEE
  sqrt is correctly rounded, hence exact there); it is used for concrete
  witnesses only.
* Byte buffers (`&[u8]`, `Vec<u8>`) are `List ℕ`; Rust `String`s built from
  byte buffers are kept as `List ℕ` or `List Char` as appropriate.
* `HashSet<String>` values are `Finset String` (only cardinalities of unions
  and intersections are consumed); `HashSet` insertion-order independence makes
  this exact.
* Fallible Rust functions returning `Option`/`Result` become `Option`/`Except`.
-/

/-- Largest `k ≤ fuel` with `k * k ≤ n` (a kernel-reducible integer square
root by downward search). -/
def natSqrtAux (n : ℕ) : ℕ → ℕ
  | 0 => 0
  | k + 1 => if (k + 1) * (k + 1) ≤ n then k + 1 else natSqrtAux n k

/-- Integer square root by downward search (kernel-reducible, unlike the
well-founded `Nat.sqrt`). -/
def natSqrt (n : ℕ) : ℕ := natSqrtAux n n

/-- Computable stand-in for `f32::sqrt`, exact on perfect squares (where IEEE
sqrt is also exact).  Used only to instantiate concrete witnesses. -/
def ratSqrt (q : ℚ) : ℚ :=
  (natSqrt q.num.toNat : ℚ) / (natSqrt q.den : ℚ)

/-- Largest value of a Rust `u64`. -/
def U64_MAX : ℕ := 2 ^ 64 - 1

/-- Largest value of a Rust `u32`. -/
def U32_MAX : ℕ := 2 ^ 32 - 1

/-! ## disk.rs : bounds-checked zero-copy slices (component C1 of the spec) -/

/-- Error variants of `RecoveryError` reachable from `DiskImage::get_slice`
(src/rust-recovery/src/error.rs); the payload fields mirror the Rust enum. -/
inductive RecoveryError where
  | invalidOffset (offset image_size : ℕ)
  | invalidSize (offset size image_size : ℕ)
deriving DecidableEq

/-- FragmentSlice (src/rust-recovery/src/disk.rs): a borrowed window of the
image; the borrowed `&[u8]` is materialised as the corresponding byte list. -/
structure FragmentSlice where
  offset : ℕ
  data : List ℕ
deriving DecidableEq

/-- DiskImage::get_slice (src/rust-recovery/src/disk.rs lines 81-116).
The image is identified with its mapped bytes, whose length is the size
reported by the file metadata.  `offset.checked_add(len)` fails exactly when
`offset + len > U64_MAX`. -/
def get_slice (image : List ℕ) (offset len : ℕ) :
    Except RecoveryError FragmentSlice :=
  let size := image.length
  if offset ≥ size then
    .error (.invalidOffset offset size)
  else if offset + len > U64_MAX then
    .error (.invalidSize offset len size)
  else if offset + len > size then
    .error (.invalidSize offset len size)
  else
    .ok ⟨offset, (image.drop offset).take len⟩

/-! ## matcher/validator.rs : video-id validation (component C3) -/

/-- Byte-level test used by `is_valid_video_id`: ASCII alphanumeric, '-' (45)
or '_' (95), mirroring `b.is_ascii_alphanumeric() || b == b'-' || b == b'_'`. -/
def isIdByte (b : ℕ) : Bool :=
  decide ((48 ≤ b ∧ b ≤ 57) ∨ (65 ≤ b ∧ b ≤ 90) ∨ (97 ≤ b ∧ b ≤ 122) ∨
    b = 45 ∨ b = 95)

/-- is_valid_video_id (src/rust-recovery/src/matcher/validator.rs lines 7-16). -/
def is_valid_video_id (id : List ℕ) : Bool :=
  decide (id.length = 11) && id.all isIdByte

/-! ## simd_search.rs : first-occurrence pattern search (component C2) -/

/-- Window-equality test at position `i`: does the needle match the haystack
bytes starting at `i`?  (Comparison of one `windows(len)` element.) -/
def matchAt (haystack needle : List ℕ) (i : ℕ) : Bool :=
  decide ((haystack.drop i).take needle.length = needle)

/-- Scan of successive windows starting at index `i`; `fuel` is the number of
windows still to inspect.  Models `windows(len).position(..)` which inspects
windows left to right and stops at the first hit. -/
def scanWindows (haystack needle : List ℕ) : ℕ → ℕ → Option ℕ
  | _, 0 => none
  | i, fuel + 1 =>
    if matchAt haystack needle i then some i
    else scanWindows haystack needle (i + 1) fuel

/-- find_pattern_scalar (src/rust-recovery/src/simd_search.rs lines 49-53):
`haystack.windows(needle.len()).position(|w| w == needle)`.  A haystack of
length `n` has `n - len + 1` windows (and the caller guarantees
`len ≤ n` and `len > 0`). -/
def find_pattern_scalar (haystack needle : List ℕ) : Option ℕ :=
  scanWindows haystack needle 0 (haystack.length - needle.length + 1)

/-- verify_match_simd_32 (src/rust-recovery/src/simd_search_asm.rs lines
111-138): window and needle are zero-padded to 32 bytes and compared bytewise,
and only the first `needle.length` lanes of the resulting mask are required
(all 32 when the needle fills the register), so the test is equality on the
needle-length prefix of the window. -/
def verify_match_simd_32 (window needle : List ℕ) : Bool :=
  if window.length < needle.length then false
  else decide (window.take needle.length = needle)

/-- verify_match_scalar (src/rust-recovery/src/simd_search_asm.rs lines
140-143): plain slice equality. -/
def verify_match_scalar (window needle : List ℕ) : Bool :=
  decide (window = needle)

/-- verify_match_asm (src/rust-recovery/src/simd_search_asm.rs lines 101-108):
SIMD verification for needles of up to 32 bytes, scalar equality beyond. -/
def verify_match_asm (window needle : List ℕ) : Bool :=
  if needle.length ≤ 32 then verify_match_simd_32 window needle
  else verify_match_scalar window needle

/-- One 32-lane movemask scan of find_pattern_avx2_asm
(src/rust-recovery/src/simd_search_asm.rs lines 63-89): `hit b` says whether
the mask bit of the lane holding byte value `b` is set.  Set bits are visited
in ascending lane order; each candidate position is bounds-checked and
verified with verify_match_asm on the needle-length window, and the first
verified position is returned (the `mask != 0` fast path in the source does
not change the result). -/
def asmScanHalf (haystack needle : List ℕ) (base : ℕ) (hit : ℕ → Bool) :
    Option ℕ :=
  (List.range 32).findSome? fun bit =>
    let pos := base + bit
    if hit (haystack.getD pos 0) then
      if pos + needle.length ≤ haystack.length then
        if verify_match_asm ((haystack.drop pos).take needle.length) needle
        then some pos else none
      else none
    else none

/-- Main loop of find_pattern_avx2_asm
(src/rust-recovery/src/simd_search_asm.rs lines 29-97).  Each iteration
handles one 64-byte stride at `i` while `i + 64 <= len - needle_len`
(saturating subtraction).  mask1 is the movemask of the comparison
`vpcmpeqb cmp1, chunk1, search`, so its bit b is set exactly when byte
`i + b` equals the needle's first byte.  mask2, however, is taken of the RAW
second chunk — the asm reads `vpmovmskb mask2, chunk2` (line 50) although
`cmp2` was just computed and is discarded — so its bit b is set exactly when
byte `i + 32 + b` has its high bit set (`Nat.testBit 7`), independently of
the needle.  Bytes from the last incomplete stride on are searched with the
scalar window scan.  `fuel` bounds the number of strides; the wrapper passes
`haystack.length / 64 + 1`, which the loop can never exhaust, so the fuel-0
case (which answers like the scalar tail) is unreachable from it. -/
def avx2LoopAsm (haystack needle : List ℕ) : ℕ → ℕ → Option ℕ
  | i, 0 => (find_pattern_scalar (haystack.drop i) needle).map (fun p => i + p)
  | i, fuel + 1 =>
    if i + 64 ≤ haystack.length - needle.length then
      match asmScanHalf haystack needle i (fun b => b == needle.headD 0) with
      | some pos => some pos
      | none =>
        match asmScanHalf haystack needle (i + 32) (fun b => b.testBit 7) with
        | some pos => some pos
        | none => avx2LoopAsm haystack needle (i + 64) fuel
    else (find_pattern_scalar (haystack.drop i) needle).map (fun p => i + p)

/-- find_pattern_avx2_asm (src/rust-recovery/src/simd_search_asm.rs lines
10-98): empty-needle/short-haystack guard, then the 64-byte-stride loop. -/
def find_pattern_avx2_asm (haystack needle : List ℕ) : Option ℕ :=
  if needle.isEmpty ∨ haystack.length < needle.length then none
  else avx2LoopAsm haystack needle 0 (haystack.length / 64 + 1)

/-- One 16-lane scan of find_pattern_sse42
(src/rust-recovery/src/simd_search.rs lines 108-127): here the movemask IS
taken of the comparison result, so a lane is a candidate exactly when its
byte equals the needle's first byte; verification is plain slice equality. -/
def sse42ScanHalf (haystack needle : List ℕ) (base : ℕ) : Option ℕ :=
  (List.range 16).findSome? fun bit =>
    let pos := base + bit
    if haystack.getD pos 0 == needle.headD 0 then
      if pos + needle.length ≤ haystack.length then
        if decide ((haystack.drop pos).take needle.length = needle)
        then some pos else none
      else none
    else none

/-- Main loop of find_pattern_sse42 (src/rust-recovery/src/simd_search.rs
lines 99-135): 16-byte strides while `i + 16 <= len - needle_len`, then the
scalar window scan on the remaining bytes.  Fuel as in avx2LoopAsm. -/
def sse42Loop (haystack needle : List ℕ) : ℕ → ℕ → Option ℕ
  | i, 0 => (find_pattern_scalar (haystack.drop i) needle).map (fun p => i + p)
  | i, fuel + 1 =>
    if i + 16 ≤ haystack.length - needle.length then
      match sse42ScanHalf haystack needle i with
      | some pos => some pos
      | none => sse42Loop haystack needle (i + 16) fuel
    else (find_pattern_scalar (haystack.drop i) needle).map (fun p => i + p)

/-- find_pattern_sse42 (src/rust-recovery/src/simd_search.rs lines 96-135);
the dispatcher guarantees a non-empty needle no longer than the haystack. -/
def find_pattern_sse42 (haystack needle : List ℕ) : Option ℕ :=
  sse42Loop haystack needle 0 (haystack.length / 16 + 1)

/-- Runtime CPU feature detection (`is_x86_feature_detected!` in
src/rust-recovery/src/simd_search.rs lines 34-37), an input from the
environment: it decides which dispatch path find_pattern_simd takes. -/
structure CpuFeatures where
  avx2 : Bool
  sse42 : Bool

/-- find_pattern_simd (src/rust-recovery/src/simd_search.rs lines 21-45):
empty-needle/short-haystack guard, scalar search for needles under 16 bytes,
then runtime dispatch — the hand-written AVX2 asm first, else the SSE4.2
loop, else the scalar fallback. -/
def find_pattern_simd (cpu : CpuFeatures) (haystack needle : List ℕ) :
    Option ℕ :=
  if needle.isEmpty ∨ haystack.length < needle.length then none
  else if needle.length < 16 then find_pattern_scalar haystack needle
  else if cpu.avx2 then find_pattern_avx2_asm haystack needle
  else if cpu.sse42 then find_pattern_sse42 haystack needle
  else find_pattern_scalar haystack needle

/-- Occurrence predicate: the needle appears as a contiguous substring of the
haystack at offset `i`. -/
def occursAt (haystack needle : List ℕ) (i : ℕ) : Prop :=
  i + needle.length ≤ haystack.length ∧
    (haystack.drop i).take needle.length = needle

instance (haystack needle : List ℕ) (i : ℕ) :
    Decidable (occursAt haystack needle i) := by
  unfold occursAt; infer_instance

/-! ## exfat.rs : boot-sector parsing, entry sets, cluster chains (C4) -/

/-- Little-endian `u16` read (src/rust-recovery/src/exfat.rs lines 57-61). -/
def read_u16_le (data : List ℕ) (offset : ℕ) : Option ℕ :=
  match data.get? offset, data.get? (offset + 1) with
  | some b0, some b1 => some (b0 + b1 * 2 ^ 8)
  | _, _ => none

/-- Little-endian `u32` read (src/rust-recovery/src/exfat.rs lines 63-67). -/
def read_u32_le (data : List ℕ) (offset : ℕ) : Option ℕ :=
  match data.get? offset, data.get? (offset + 1), data.get? (offset + 2),
      data.get? (offset + 3) with
  | some b0, some b1, some b2, some b3 =>
    some (b0 + b1 * 2 ^ 8 + b2 * 2 ^ 16 + b3 * 2 ^ 24)
  | _, _, _, _ => none

/-- Little-endian `u64` read (src/rust-recovery/src/exfat.rs lines 69-73). -/
def read_u64_le (data : List ℕ) (offset : ℕ) : Option ℕ :=
  match read_u32_le data offset, read_u32_le data (offset + 4) with
  | some lo, some hi => some (lo + hi * 2 ^ 32)
  | _, _ => none

/-- ExFatBootParams (src/rust-recovery/src/exfat.rs lines 34-44). -/
structure ExFatBootParams where
  sector_size : ℕ
  cluster_size : ℕ
  fat_offset : ℕ
  fat_length_sectors : ℕ
  cluster_heap_offset : ℕ
  cluster_count : ℕ
  root_dir_cluster : ℕ
  boot_sector_offset : ℕ
deriving DecidableEq

/-- Bytes of the eight-byte signature "EXFAT   " at boot-sector offset 3. -/
def exfatSig : List ℕ := [69, 88, 70, 65, 84, 32, 32, 32]

/-- MAX_CLUSTER_SIZE = 32 MiB (src/rust-recovery/src/exfat.rs line 31). -/
def MAX_CLUSTER_SIZE : ℕ := 32 * 1024 * 1024

/-- MAX_EXTRACT_SIZE = 250 MiB (src/rust-recovery/src/exfat.rs line 32). -/
def MAX_EXTRACT_SIZE : ℕ := 250 * 1024 * 1024

/-- parse_boot_sector_at (src/rust-recovery/src/exfat.rs lines 75-129).
`sector_size = 1u64 << shift` with `shift ≤ 12` and
`cluster_size = sector_size << shift2` with `shift2 ≤ 25` cannot wrap a `u64`
(max value `2^37`), so plain `ℕ` arithmetic is exact there; the two checked
operations for `fat_offset` and `cluster_heap_offset` are modelled with the
explicit `U64_MAX` bound. -/
def parse_boot_sector_at (data : List ℕ) (bs_offset : ℕ) :
    Option ExFatBootParams :=
  let off := bs_offset
  if data.length < off + 120 then none
  else if (data.drop (off + 3)).take 8 ≠ exfatSig then none
  else
    match data.get? (off + 108), data.get? (off + 109) with
    | some bytes_per_sector_shift, some sectors_per_cluster_shift =>
      if ¬ (9 ≤ bytes_per_sector_shift ∧ bytes_per_sector_shift ≤ 12) then none
      else if sectors_per_cluster_shift > 25 then none
      else
        let sector_size := 2 ^ bytes_per_sector_shift
        let cluster_size := sector_size * 2 ^ sectors_per_cluster_shift
        if cluster_size = 0 ∨ cluster_size > MAX_CLUSTER_SIZE then none
        else
          match read_u32_le data (off + 80), read_u32_le data (off + 84),
              read_u32_le data (off + 88), read_u32_le data (off + 92),
              read_u32_le data (off + 96) with
          | some fat_offset_sectors, some fat_length_sectors,
              some cluster_heap_offset_sectors, some cluster_count,
              some root_dir_cluster =>
            if fat_offset_sectors * sector_size > U64_MAX then none
            else if fat_offset_sectors * sector_size + bs_offset > U64_MAX then
              none
            else if cluster_heap_offset_sectors * sector_size > U64_MAX then
              none
            else if cluster_heap_offset_sectors * sector_size + bs_offset >
                U64_MAX then none
            else
              let fat_offset := fat_offset_sectors * sector_size + bs_offset
              let cluster_heap_offset :=
                cluster_heap_offset_sectors * sector_size + bs_offset
              if fat_offset = 0 ∨ cluster_heap_offset = 0 then none
              else
                some ⟨sector_size, cluster_size, fat_offset,
                  fat_length_sectors, cluster_heap_offset, cluster_count,
                  root_dir_cluster, bs_offset⟩
          | _, _, _, _, _ => none
    | _, _ => none

/-- Scan step of find_boot_sector over candidate offsets (512-byte stride);
the loop breaks (returns "not found") as soon as a candidate has fewer than
120 bytes left, and otherwise tries the signature and full parse. -/
def bootScan (data : List ℕ) : List ℕ → Option ExFatBootParams
  | [] => none
  | off :: rest =>
    if off + 120 > data.length then none
    else if (data.drop (off + 3)).take 8 = exfatSig then
      match parse_boot_sector_at data off with
      | some params => some params
      | none => bootScan data rest
    else bootScan data rest

/-- find_boot_sector (src/rust-recovery/src/exfat.rs lines 131-149): try
offset 0, then every 512 bytes below `min(len, 4 MiB)`. -/
def find_boot_sector (data : List ℕ) : Option ExFatBootParams :=
  match parse_boot_sector_at data 0 with
  | some params => some params
  | none =>
    let search_limit := min data.length (4 * 1024 * 1024)
    bootScan data (List.range' 512 ((search_limit - 512 + 511) / 512) 512)

/-- fat_next_cluster (src/rust-recovery/src/exfat.rs lines 151-156). -/
def fat_next_cluster (data : List ℕ) (params : ExFatBootParams)
    (cluster : ℕ) : Option ℕ :=
  if cluster * 4 > U64_MAX then none
  else if params.fat_offset + cluster * 4 > U64_MAX then none
  else read_u32_le data (params.fat_offset + cluster * 4)

/-- cluster_to_offset (src/rust-recovery/src/exfat.rs lines 158-165). -/
def cluster_to_offset (params : ExFatBootParams) (cluster : ℕ) : Option ℕ :=
  if cluster < 2 then none
  else if (cluster - 2) * params.cluster_size > U64_MAX then none
  else if params.cluster_heap_offset + (cluster - 2) * params.cluster_size >
      U64_MAX then none
  else some (params.cluster_heap_offset + (cluster - 2) * params.cluster_size)

/-- Cluster-walk loop of extract_file_content (src/rust-recovery/src/exfat.rs
lines 185-224).  Each complete iteration reads at least one byte
(`end > start` is checked), so `remaining` strictly decreases and the loop
terminates.  `cluster.checked_add(1)` cannot overflow a `u64` because
`cluster ≤ U32_MAX` on entry, so the no-FAT-chain successor is plain `+ 1`. -/
def extractLoop (data : List ℕ) (params : ExFatBootParams)
    (no_fat_chain : Bool) (max_chain : ℕ) (remaining cluster : ℕ)
    (visited content : List ℕ) : List ℕ :=
  if remaining = 0 then content
  else if cluster < 2 ∨ cluster ≥ 0xFFFFFFF7 ∨ cluster > max_chain then content
  else if cluster ∈ visited then content
  else
    match cluster_to_offset params cluster with
    | none => content
    | some start =>
      if start ≥ data.length then content
      else
        let to_read := min remaining params.cluster_size
        let endPos := min (start + to_read) data.length
        if _h : endPos ≤ start then content
        else
          let read_len := endPos - start
          let content' := content ++ (data.drop start).take read_len
          let next : Option ℕ :=
            if no_fat_chain then some (cluster + 1)
            else fat_next_cluster data params cluster
          match next with
          | none => content'
          | some c2 =>
            extractLoop data params no_fat_chain max_chain
              (remaining - read_len) c2 (cluster :: visited) content'
termination_by remaining
decreasing_by
  have _h1 : 0 < endPos - start := Nat.sub_pos_of_lt (Nat.lt_of_not_le _h)
  omega

/-- extract_file_content (src/rust-recovery/src/exfat.rs lines 167-228).
`params.cluster_count.saturating_add(1)` saturates at `u32::MAX`. -/
def extract_file_content (data : List ℕ) (params : ExFatBootParams)
    (first_cluster file_size : ℕ) (no_fat_chain : Bool) : List ℕ :=
  if first_cluster < 2 ∨ file_size = 0 then []
  else
    let actual_size := min file_size MAX_EXTRACT_SIZE
    let max_chain := min (params.cluster_count + 1) U32_MAX
    (extractLoop data params no_fat_chain max_chain actual_size first_cluster
      [] []).take actual_size

/-- ExFatEntry (src/rust-recovery/src/exfat.rs lines 46-55); the decoded
filename is kept as the list of its characters. -/
structure ExFatEntry where
  offset : ℕ
  data_offset : Option ℕ
  is_deleted : Bool
  filename : List Char
  size : ℕ
  first_cluster : ℕ
  no_fat_chain : Bool
deriving DecidableEq

/-- Inner filename loop of parse_entry_set (src/rust-recovery/src/exfat.rs
lines 280-296): up to 15 UTF-16 code units from one filename entry, stopping
at the name-length budget, a read failure, or a NUL unit; surrogate code
units (where `char::from_u32` fails) are skipped without incrementing the
collected count.  The second argument is the number of units still allowed
in this entry (starts at 15). -/
def nameCharsInner (data : List ℕ) (name_length fn_offset : ℕ) :
    ℕ → ℕ → List Char × ℕ → List Char × ℕ
  | _, 0, st => st
  | j, fuel + 1, st =>
    if st.2 ≥ name_length then st
    else
      match read_u16_le data (fn_offset + 2 + j * 2) with
      | none => st
      | some ch =>
        if ch = 0 then st
        else
          let st' :=
            if 0xD800 ≤ ch ∧ ch ≤ 0xDFFF then st
            else (st.1 ++ [Char.ofNat ch], st.2 + 1)
          nameCharsInner data name_length fn_offset (j + 1) fuel st'

/-- Outer filename loop of parse_entry_set (src/rust-recovery/src/exfat.rs
lines 269-297): entries `2 ..< total_entries`, breaking on a short buffer or
on an entry whose type byte is not 0xC1/0x41.  The in-bounds check makes the
`data.get(fn_offset)?` read infallible, so its `None` case is unreachable and
modelled as the same break.  The second argument is the count of entries
still to visit. -/
def nameCharsOuter (data : List ℕ) (name_length : ℕ) :
    ℕ → ℕ → List Char × ℕ → List Char × ℕ
  | _, 0, st => st
  | i, fuel + 1, st =>
    let fn_offset := i * 32
    if fn_offset + 32 > data.length then st
    else
      match data.get? fn_offset with
      | none => st
      | some fn_type =>
        if fn_type ≠ 0xC1 ∧ fn_type ≠ 0x41 then st
        else
          nameCharsOuter data name_length (i + 1) fuel
            (nameCharsInner data name_length fn_offset 0 15 st)

/-- parse_entry_set (src/rust-recovery/src/exfat.rs lines 230-315).
`(general_flags & 0x02) != 0` is `testBit 1`. -/
def parse_entry_set (data : List ℕ) (base_offset : ℕ) :
    Option (ExFatEntry × ℕ) :=
  if data.length < 32 then none
  else
    match data.get? 0 with
    | none => none
    | some file_type =>
      let is_deleted := file_type = 0x05
      if file_type ≠ 0x85 ∧ file_type ≠ 0x05 then none
      else
        match data.get? 1 with
        | none => none
        | some secondary_count =>
          if secondary_count < 2 then none
          else
            let total_entries := 1 + secondary_count
            if data.length < total_entries * 32 then none
            else
              match data.get? 32 with
              | none => none
              | some se_type =>
                if se_type ≠ 0xC0 ∧ se_type ≠ 0x40 then none
                else
                  match data.get? 33, data.get? 35 with
                  | some general_flags, some name_length =>
                    match read_u32_le data 52, read_u64_le data 56 with
                    | some first_cluster, some file_size =>
                      let no_fat_chain := general_flags.testBit 1
                      let name :=
                        (nameCharsOuter data name_length 2 (total_entries - 2)
                          ([], 0)).1
                      if first_cluster < 2 ∧ file_size > 0 then none
                      else
                        some (⟨base_offset, none, is_deleted, name, file_size,
                          first_cluster, no_fat_chain⟩, total_entries)
                    | _, _ => none
                  | _, _ => none

/-! ## matcher/validator.rs : JSON heuristics (component C5)

Rust operates on `&[u8]`, converting to `&str` (UTF-8 validation) and
trimming Unicode whitespace.  UTF-8 decoding/encoding is modelled explicitly
so that byte lengths of trimmed text are exact. -/

/-- UTF-8 byte length of one scalar value. -/
def utf8Size (c : Char) : ℕ :=
  if c.toNat < 0x80 then 1
  else if c.toNat < 0x800 then 2
  else if c.toNat < 0x10000 then 3
  else 4

/-- UTF-8 encoding of one scalar value. -/
def utf8EncodeChar (c : Char) : List ℕ :=
  let n := c.toNat
  if n < 0x80 then [n]
  else if n < 0x800 then [0xC0 + n / 64, 0x80 + n % 64]
  else if n < 0x10000 then
    [0xE0 + n / 4096, 0x80 + n / 64 % 64, 0x80 + n % 64]
  else
    [0xF0 + n / 262144, 0x80 + n / 4096 % 64, 0x80 + n / 64 % 64,
      0x80 + n % 64]

/-- UTF-8 encoding of a character sequence (the bytes of the Rust `str`). -/
def utf8Encode (s : List Char) : List ℕ :=
  (s.map utf8EncodeChar).flatten

/-- Strict UTF-8 decoding (the validation performed by
`std::str::from_utf8`): rejects overlong forms, surrogates and values above
U+10FFFF, per the WHATWG/RFC 3629 ranges that Rust implements.  The first
argument is fuel; every step consumes at least one byte, so fuel equal to the
byte count suffices. -/
def utf8DecodeAux : ℕ → List ℕ → Option (List Char)
  | _, [] => some []
  | 0, _ :: _ => none
  | fuel + 1, b :: rest =>
    if b < 0x80 then (utf8DecodeAux fuel rest).map (Char.ofNat b :: ·)
    else if 0xC2 ≤ b ∧ b ≤ 0xDF then
      match rest with
      | b1 :: rest1 =>
        if 0x80 ≤ b1 ∧ b1 ≤ 0xBF then
          (utf8DecodeAux fuel rest1).map
            (Char.ofNat ((b - 0xC0) * 64 + (b1 - 0x80)) :: ·)
        else none
      | [] => none
    else if 0xE0 ≤ b ∧ b ≤ 0xEF then
      match rest with
      | b1 :: b2 :: rest2 =>
        let lo1 := if b = 0xE0 then 0xA0 else 0x80
        let hi1 := if b = 0xED then 0x9F else 0xBF
        if lo1 ≤ b1 ∧ b1 ≤ hi1 ∧ 0x80 ≤ b2 ∧ b2 ≤ 0xBF then
          (utf8DecodeAux fuel rest2).map
            (Char.ofNat ((b - 0xE0) * 4096 + (b1 - 0x80) * 64 + (b2 - 0x80))
              :: ·)
        else none
      | _ => none
    else if 0xF0 ≤ b ∧ b ≤ 0xF4 then
      match rest with
      | b1 :: b2 :: b3 :: rest3 =>
        let lo1 := if b = 0xF0 then 0x90 else 0x80
        let hi1 := if b = 0xF4 then 0x8F else 0xBF
        if lo1 ≤ b1 ∧ b1 ≤ hi1 ∧ 0x80 ≤ b2 ∧ b2 ≤ 0xBF ∧ 0x80 ≤ b3 ∧
            b3 ≤ 0xBF then
          (utf8DecodeAux fuel rest3).map
            (Char.ofNat ((b - 0xF0) * 262144 + (b1 - 0x80) * 4096 +
              (b2 - 0x80) * 64 + (b3 - 0x80)) :: ·)
        else none
      | _ => none
    else none

/-- UTF-8 decoding entry point (`std::str::from_utf8` as a total function). -/
def utf8Decode (data : List ℕ) : Option (List Char) :=
  utf8DecodeAux data.length data

/-- Unicode White_Space code points, the set used by Rust `char::is_whitespace`
and hence by `str::trim`. -/
def isRustWhitespace (c : Char) : Bool :=
  decide (c.toNat ∈ ([0x09, 0x0A, 0x0B, 0x0C, 0x0D, 0x20, 0x85, 0xA0, 0x1680,
    0x2000, 0x2001, 0x2002, 0x2003, 0x2004, 0x2005, 0x2006, 0x2007, 0x2008,
    0x2009, 0x200A, 0x2028, 0x2029, 0x202F, 0x205F, 0x3000] : List ℕ))

/-- Rust `str::trim`: remove leading and trailing whitespace characters. -/
def rustTrim (s : List Char) : List Char :=
  ((s.dropWhile isRustWhitespace).reverse.dropWhile isRustWhitespace).reverse

/-- Mutable state of the brace/bracket balance loop in is_probably_json:
two `i32` counters plus the string/escape flags. -/
structure JsonScanState where
  brace : ℤ
  bracket : ℤ
  in_string : Bool
  escape_next : Bool
deriving DecidableEq

/-- Wrap-around of a Rust `i32` addition result (release-mode `+= 1`). -/
def wrap32 (z : ℤ) : ℤ := (z + 2 ^ 31) % 2 ^ 32 - 2 ^ 31

/-- Rust `i32::saturating_sub(1)`: saturates only at `i32::MIN`. -/
def satDec (z : ℤ) : ℤ := if z = -(2 ^ 31) then z else z - 1

/-- One step of the balance loop in is_probably_json
(src/rust-recovery/src/matcher/validator.rs lines 46-73), over one byte of the
trimmed text; byte values: backslash 92, quote 34, braces 123/125, brackets
91/93. -/
def jsonScanStep (st : JsonScanState) (b : ℕ) : JsonScanState :=
  if st.escape_next then { st with escape_next := false }
  else if b = 92 then { st with escape_next := true }
  else if b = 34 then { st with in_string := ¬ st.in_string }
  else if st.in_string then st
  else if b = 123 then { st with brace := wrap32 (st.brace + 1) }
  else if b = 125 then { st with brace := satDec st.brace }
  else if b = 91 then { st with bracket := wrap32 (st.bracket + 1) }
  else if b = 93 then { st with bracket := satDec st.bracket }
  else st

/-- is_probably_json (src/rust-recovery/src/matcher/validator.rs lines
21-77).  `trimmed.len()` is the UTF-8 byte length of the trimmed text, and the
balance loop iterates over its UTF-8 bytes. -/
def is_probably_json (data : List ℕ) : Bool :=
  if data.isEmpty then false
  else
    match utf8Decode data with
    | none => false
    | some text =>
      let trimmed := rustTrim text
      if ¬ (trimmed.head? = some (Char.ofNat 123) ∨
          trimmed.head? = some (Char.ofNat 91)) then false
      else
        let bytes := utf8Encode trimmed
        let final := bytes.foldl jsonScanStep ⟨0, 0, false, false⟩
        decide (final.brace = 0 ∧ final.bracket = 0 ∧ bytes.length > 10)

/-- is_valid_json (src/rust-recovery/src/matcher/validator.rs lines 82-108).
The strict parse delegated to the external serde_json library is abstracted
as the parameter `parse` (success predicate on the trimmed text); the
embedded-JSON retry drops everything before the first brace character, else
the first bracket character (ASCII, so the Rust byte-index slice is the same
as the character drop). -/
def is_valid_json (parse : List Char → Bool) (data : List ℕ) : Bool :=
  if ¬ is_probably_json data then false
  else
    match utf8Decode data with
    | none => false
    | some text =>
      let t := rustTrim text
      if parse t then true
      else
        match t.findIdx? (fun c => c = Char.ofNat 123),
            t.findIdx? (fun c => c = Char.ofNat 91) with
        | some s, _ => parse (t.drop s)
        | none, some s => parse (t.drop s)
        | none, none => false

/-! ## smart_separation.rs : byte-frequency feature vectors -/

/-- ByteFrequency (src/rust-recovery/src/smart_separation.rs lines 1-4): a
256-slot `f32` array, kept as a length-256 list of rationals. -/
structure ByteFrequency where
  values : List ℚ
deriving DecidableEq

instance : Inhabited ByteFrequency := ⟨⟨List.replicate 256 0⟩⟩

/-- ByteFrequency::from_bytes (src/rust-recovery/src/smart_separation.rs
lines 7-23): count occurrences of each byte, then normalise by the length;
empty input short-circuits to the zero vector. -/
def ByteFrequency.from_bytes (data : List ℕ) : ByteFrequency :=
  let zero := List.replicate 256 (0 : ℚ)
  if data.isEmpty then ⟨zero⟩
  else
    let counts :=
      data.foldl (fun acc b => acc.set b (((acc.get? b).getD 0) + 1)) zero
    ⟨counts.map (fun v => v / (data.length : ℚ))⟩

/-- ByteFrequency::cosine_similarity (src/rust-recovery/src/smart_separation.rs
lines 25-41); `sqrt` stands for `f32::sqrt`. -/
def ByteFrequency.cosine_similarity (sqrt : ℚ → ℚ) (a b : ByteFrequency) :
    ℚ :=
  let dot := (List.zipWith (· * ·) a.values b.values).sum
  let norm_self := (a.values.map (fun v => v * v)).sum
  let norm_other := (b.values.map (fun v => v * v)).sum
  if norm_self = 0 ∨ norm_other = 0 then 0
  else dot / (sqrt norm_self * sqrt norm_other)

/-! ## types.rs : fragment scoring types for the stream assembler -/

/-- FragmentScore (src/rust-recovery/src/types.rs lines 241-251). -/
structure FragmentScore where
  overall_score : ℚ
  is_valid_json : Bool
  is_valid_html : Bool
  is_valid_csv : Bool
  is_valid_youtube_url : Bool
  has_structured_text : Bool
  is_compressed : Bool
  reasons : List String
deriving DecidableEq

instance : Inhabited FragmentScore :=
  ⟨⟨0, false, false, false, false, false, false, []⟩⟩

/-- FragmentScore::default (src/rust-recovery/src/types.rs lines 253-266). -/
def FragmentScore.default : FragmentScore :=
  ⟨0, false, false, false, false, false, false, []⟩

/-- FragmentScore::is_valid_structure (src/rust-recovery/src/types.rs lines
270-272). -/
def FragmentScore.is_valid_structure (s : FragmentScore) : Bool :=
  s.is_valid_json || s.is_valid_html || s.is_valid_csv || s.has_structured_text

/-- StreamFragment (src/rust-recovery/src/types.rs lines 282-290). -/
structure StreamFragment where
  offset : ℕ
  size : ℕ
  base_score : ℚ
  file_type : String
  links : List String
  feature_vector : ByteFrequency
  fragment_score : FragmentScore
deriving DecidableEq

instance : Inhabited StreamFragment :=
  ⟨⟨0, 0, 0, "", [], default, default⟩⟩

instance : IsTotal StreamFragment (fun a b => a.offset ≤ b.offset) :=
  ⟨fun a b => Nat.le_total a.offset b.offset⟩

instance : IsTrans StreamFragment (fun a b => a.offset ≤ b.offset) :=
  ⟨fun _ _ _ h1 h2 => Nat.le_trans h1 h2⟩

/-- StreamFragment::from_bytes (src/rust-recovery/src/types.rs lines
293-309). -/
def StreamFragment.from_bytes (offset : ℕ) (data : List ℕ)
    (file_type : String) (base_score : ℚ) (fragment_score : FragmentScore) :
    StreamFragment :=
  ⟨offset, data.length, base_score, file_type, [],
    ByteFrequency.from_bytes data, fragment_score⟩

/-- StreamFragment::end_offset (src/rust-recovery/src/types.rs lines
319-321); `offset + size` is a `u64` addition that the assembler only uses on
in-image fragments, where it cannot wrap. -/
def StreamFragment.end_offset (f : StreamFragment) : ℕ := f.offset + f.size

/-- StreamFragment::total_score (src/rust-recovery/src/types.rs lines
323-325). -/
def StreamFragment.total_score (f : StreamFragment) : ℚ :=
  f.base_score + f.fragment_score.overall_score

/-- StreamFragment::has_valid_structure (src/rust-recovery/src/types.rs lines
327-329). -/
def StreamFragment.has_valid_structure (f : StreamFragment) : Bool :=
  f.fragment_score.is_valid_structure

/-- StreamScoringWeights (src/rust-recovery/src/types.rs lines 334-346). -/
structure StreamScoringWeights where
  max_gap : ℕ
  max_overlap : ℕ
  gap_penalty : ℚ
  overlap_penalty : ℚ
  type_match_bonus : ℚ
  type_mismatch_penalty : ℚ
  cosine_weight : ℚ
  jaccard_weight : ℚ
  structure_bonus : ℚ
  min_edge_score : ℚ
  max_lookback : ℕ
deriving DecidableEq

/-- StreamScoringWeights::default (src/rust-recovery/src/types.rs lines
348-364). -/
def weightsDefault : StreamScoringWeights :=
  ⟨1048576, 64 * 1024, 15, 20, 8, 5, 25, 10, 6, 5, 200⟩

/-- AssembledStream (src/rust-recovery/src/types.rs lines 368-373). -/
structure AssembledStream where
  fragments : List StreamFragment
  confidence : ℚ
  total_score : ℚ
  reasons : List String
deriving DecidableEq

instance : Inhabited AssembledStream := ⟨⟨[], 0, 0, []⟩⟩

/-! ## stream_solver.rs : the DP stream assembler (component C8) -/

/-- PathResult (src/rust-recovery/src/stream_solver.rs lines 5-10). -/
structure PathResult where
  indices : List ℕ
  edge_scores : List ℚ
  total_score : ℚ
deriving DecidableEq

/-- jaccard_similarity (src/rust-recovery/src/stream_solver.rs lines 185-197;
the identical private function also appears in
src/rust-recovery/src/fragment_linker.rs lines 124-136). -/
def jaccard_similarity (left right : Finset String) : ℚ :=
  if left = ∅ ∧ right = ∅ then 0
  else
    let inter := (left ∩ right).card
    let union := (left ∪ right).card
    if (union : ℚ) = 0 then 0 else (inter : ℚ) / (union : ℚ)

/-- edge_score (src/rust-recovery/src/stream_solver.rs lines 136-183). -/
def edge_score (left right : StreamFragment) (w : StreamScoringWeights)
    (left_links right_links : Finset String) (sqrt : ℚ → ℚ) : Option ℚ :=
  let left_end := left.end_offset
  let right_start := right.offset
  let gap : ℕ := if right_start ≥ left_end then right_start - left_end else 0
  let overlap : ℕ :=
    if right_start ≥ left_end then 0 else left_end - right_start
  if gap > w.max_gap ∨ overlap > w.max_overlap then none
  else
    let s0 : ℚ := 0
    let s1 :=
      if w.max_gap > 0 then
        s0 - w.gap_penalty * ((gap : ℚ) / (w.max_gap : ℚ))
      else s0
    let s2 :=
      if w.max_overlap > 0 then
        s1 - w.overlap_penalty * ((overlap : ℚ) / (w.max_overlap : ℚ))
      else s1
    let s3 :=
      if left.file_type = right.file_type then s2 + w.type_match_bonus
      else s2 - w.type_mismatch_penalty
    let cosine :=
      ByteFrequency.cosine_similarity sqrt left.feature_vector
        right.feature_vector
    let jaccard := jaccard_similarity left_links right_links
    let s4 := s3 + cosine * w.cosine_weight
    let s5 := s4 + jaccard * w.jaccard_weight
    let s6 :=
      if left.has_valid_structure ∧ right.has_valid_structure then
        s5 + w.structure_bonus
      else s5
    if s6 < w.min_edge_score then none else some s6

/-- DP table entry for one fragment: `(best_score, previous, edge_score_to)`
(the three parallel vectors of find_best_path). -/
def DpEntry : Type := ℚ × Option ℕ × ℚ

instance : DecidableEq DpEntry := by unfold DpEntry; infer_instance

instance : Inhabited DpEntry := ⟨((0 : ℚ), none, (0 : ℚ))⟩

/-- Inner predecessor loop of find_best_path
(src/rust-recovery/src/stream_solver.rs lines 76-105) for fragment `i`:
the first `ℕ` argument is `j + 1` for the predecessor index `j` about to be
examined (so it starts at `i` and counts down), `looked_back` is the lookback
counter checked at the top of the loop, and the state is the current
`(best_score[i], previous[i], edge_score_to[i])`. -/
def dpInner (frags : List StreamFragment) (w : StreamScoringWeights)
    (ls : List (Finset String)) (sqrt : ℚ → ℚ) (table : List DpEntry)
    (i : ℕ) : ℕ → ℕ → DpEntry → DpEntry
  | 0, _, st => st
  | j + 1, looked_back, st =>
    if looked_back ≥ w.max_lookback then st
    else
      let fi := (frags.get? i).getD default
      let fj := (frags.get? j).getD default
      if fi.offset ≥ fj.end_offset ∧ fi.offset - fj.end_offset > w.max_gap
      then st
      else
        let st' :=
          match edge_score fj fi w ((ls.get? j).getD ∅) ((ls.get? i).getD ∅)
              sqrt with
          | some e =>
            let bj := ((table.get? j).map (·.1)).getD 0
            let candidate := bj + e + fi.total_score
            if candidate > st.1 then (candidate, some j, e) else st
          | none => st
        dpInner frags w ls sqrt table i j (looked_back + 1) st'

/-- DP-table construction loop of find_best_path
(src/rust-recovery/src/stream_solver.rs lines 73-106): the table entry for
fragment `i` is initialised with its node score and refined by the inner
loop; `k` counts the fragments still to process, and the current index is
always `table.length`. -/
def dpTableAux (frags : List StreamFragment) (w : StreamScoringWeights)
    (ls : List (Finset String)) (sqrt : ℚ → ℚ) :
    ℕ → List DpEntry → List DpEntry
  | 0, table => table
  | k + 1, table =>
    let i := table.length
    let node := ((frags.get? i).getD default).total_score
    let entry := dpInner frags w ls sqrt table i i 0 (node, none, 0)
    dpTableAux frags w ls sqrt k (table ++ [entry])

/-- Full DP table of find_best_path: one entry per fragment. -/
def dpTable (frags : List StreamFragment) (w : StreamScoringWeights)
    (ls : List (Finset String)) (sqrt : ℚ → ℚ) : List DpEntry :=
  dpTableAux frags w ls sqrt frags.length []

/-- Vector of DP best scores (`best_score` in the Rust). -/
def dpBestScores (frags : List StreamFragment) (w : StreamScoringWeights)
    (ls : List (Finset String)) (sqrt : ℚ → ℚ) : List ℚ :=
  (dpTable frags w ls sqrt).map (·.1)

/-- Reduction step of Rust `Iterator::max_by` on `(index, score)` pairs
compared by score: the incumbent survives only if strictly greater, so the
last maximal element wins. -/
def chooseBestAux : Option (ℕ × ℚ) → List (ℕ × ℚ) → Option (ℕ × ℚ)
  | acc, [] => acc
  | acc, p :: rest =>
    chooseBestAux
      (match acc with
        | none => some p
        | some q => if q.2 > p.2 then some q else some p)
      rest

/-- best_score.iter().enumerate().max_by(..) of find_best_path
(src/rust-recovery/src/stream_solver.rs lines 108-111): index and value of
the maximal score, ties resolved to the last (largest) index. -/
def chooseBest (scores : List ℚ) : Option (ℕ × ℚ) :=
  chooseBestAux none scores.enum

/-- Path reconstruction loop of find_best_path
(src/rust-recovery/src/stream_solver.rs lines 113-124), following `previous`
pointers from the chosen end index; `previous` indices are strictly smaller
than their source by construction (see `dpTableAux_prev_lt`), so fuel equal to
the table length suffices and the fuel-out branch is unreachable. -/
def buildChain (table : List DpEntry) : ℕ → ℕ → List ℕ × List ℚ
  | 0, _ => ([], [])
  | fuel + 1, idx =>
    match ((table.get? idx).getD default : DpEntry) with
    | (_, some prev, e) =>
      let rest := buildChain table fuel prev
      (idx :: rest.1, e :: rest.2)
    | (_, none, _) => ([idx], [])

/-- find_best_path (src/rust-recovery/src/stream_solver.rs lines 59-134). -/
def find_best_path (frags : List StreamFragment) (w : StreamScoringWeights)
    (ls : List (Finset String)) (sqrt : ℚ → ℚ) : Option PathResult :=
  if frags.length = 0 then none
  else
    let table := dpTable frags w ls sqrt
    match chooseBest (table.map (·.1)) with
    | none => none
    | some (best_index, total_score) =>
      let chain := buildChain table table.length best_index
      some ⟨chain.1.reverse, chain.2.reverse, total_score⟩

/-- build_stream (src/rust-recovery/src/stream_solver.rs lines 199-226);
numeric formatting inside the reason strings is via `toString` rather than
Rust's two-decimal formatting (the strings carry no semantics). -/
def build_stream (path : PathResult) (frags : List StreamFragment) :
    AssembledStream :=
  let selected := path.indices.filterMap (fun idx => frags.get? idx)
  let average_edge : ℚ :=
    if path.edge_scores.isEmpty then 0
    else path.edge_scores.sum / (path.edge_scores.length : ℚ)
  let confidence : ℚ :=
    if selected.isEmpty then 0
    else max (path.total_score / (selected.length : ℚ)) 0
  ⟨selected, confidence, path.total_score,
    ["fragments=" ++ toString path.indices.length,
     "avg_edge_score=" ++ toString average_edge,
     "path_score=" ++ toString path.total_score]⟩

/-- Iteration of the while loop of assemble_streams_with_weights
(src/rust-recovery/src/stream_solver.rs lines 29-54): sort the remaining pool
by offset (Rust `sort_by_key` is a stable sort, and stable sorts agree
pointwise, so `List.insertionSort` computes the identical list), build the
link sets, extract the best path, emit its stream, and drop the used indices.
The first argument counts how many more streams may still be emitted
(`limit - streams.len()`), which decreases by one per emitted stream. -/
def assembleLoop (w : StreamScoringWeights) (sqrt : ℚ → ℚ) :
    ℕ → List StreamFragment → List AssembledStream → List AssembledStream
  | 0, _, streams => streams
  | k + 1, remaining, streams =>
    if remaining.isEmpty then streams
    else
      let sorted :=
        remaining.insertionSort (fun a b => a.offset ≤ b.offset)
      let link_sets : List (Finset String) :=
        sorted.map (fun f => f.links.toFinset)
      match find_best_path sorted w link_sets sqrt with
      | none => streams
      | some path =>
        if path.indices.isEmpty then streams
        else
          let stream := build_stream path sorted
          let used := path.indices
          let remainingNext :=
            (sorted.enum.filter (fun q => !(decide (q.1 ∈ used)))).map
              Prod.snd
          assembleLoop w sqrt k remainingNext (streams ++ [stream])

/-- assemble_streams_with_weights (src/rust-recovery/src/stream_solver.rs
lines 16-57); `max_streams.unwrap_or(3).max(1)`. -/
def assemble_streams_with_weights (frags : List StreamFragment)
    (w : StreamScoringWeights) (max_streams : Option ℕ) (sqrt : ℚ → ℚ) :
    List AssembledStream :=
  if frags.isEmpty then []
  else assembleLoop w sqrt (max (max_streams.getD 3) 1) frags []

/-! ## fragment_linker.rs : pairwise affinity scoring (component C7) -/

/-- ExFatMetadata (src/rust-recovery/src/fragment_linker.rs lines 5-10). -/
structure ExFatMetadata where
  filename : Option (List Char)
  first_cluster : Option ℕ
  size : Option ℕ
deriving DecidableEq

/-- ASCII lower-casing of one character (Rust `eq_ignore_ascii_case` compares
after mapping A-Z to a-z). -/
def asciiLower (c : Char) : Char :=
  if 65 ≤ c.toNat ∧ c.toNat ≤ 90 then Char.ofNat (c.toNat + 32) else c

/-- ExFatMetadata::match_score (src/rust-recovery/src/fragment_linker.rs
lines 13-32). -/
def ExFatMetadata.match_score (a b : ExFatMetadata) : ℚ :=
  let name_match : Bool :=
    match a.filename, b.filename with
    | some l, some r => decide (l.map asciiLower = r.map asciiLower)
    | _, _ => false
  let cluster_match : Bool :=
    match a.first_cluster, b.first_cluster with
    | some l, some r => decide (l = r)
    | _, _ => false
  let size_match : Bool :=
    match a.size, b.size with
    | some l, some r => decide (l = r)
    | _, _ => false
  if name_match || cluster_match || size_match then 1 else 0

/-- FragmentDescriptor (src/rust-recovery/src/fragment_linker.rs lines
35-40). -/
structure FragmentDescriptor where
  byte_frequency : ByteFrequency
  links : Finset String
  exfat_metadata : Option ExFatMetadata
deriving DecidableEq

/-- FragmentDescriptor::new (src/rust-recovery/src/fragment_linker.rs lines
43-49). -/
def FragmentDescriptor.new (data : List ℕ) : FragmentDescriptor :=
  ⟨ByteFrequency.from_bytes data, ∅, none⟩

/-- LinkScore (src/rust-recovery/src/fragment_linker.rs lines 65-71). -/
structure LinkScore where
  cosine_similarity : ℚ
  jaccard_similarity : ℚ
  exfat_similarity : ℚ
  total_score : ℚ
deriving DecidableEq

/-- FragmentLinker (src/rust-recovery/src/fragment_linker.rs lines 73-80). -/
structure FragmentLinker where
  cosine_weight : ℚ
  cosine_threshold : ℚ
  jaccard_weight : ℚ
  jaccard_threshold : ℚ
  exfat_weight : ℚ
  exfat_threshold : ℚ
deriving DecidableEq

/-- FragmentLinker::default (src/rust-recovery/src/fragment_linker.rs lines
82-93): weights 0.55 / 0.25 / 0.20, thresholds 0.92 / 0.3 / 1.0. -/
def linkerDefault : FragmentLinker :=
  ⟨55 / 100, 92 / 100, 25 / 100, 3 / 10, 20 / 100, 1⟩

/-- FragmentLinker::score (src/rust-recovery/src/fragment_linker.rs lines
96-121); `sqrt` stands for `f32::sqrt` inside the cosine similarity. -/
def FragmentLinker.score (linker : FragmentLinker)
    (left right : FragmentDescriptor) (sqrt : ℚ → ℚ) : LinkScore :=
  let cosine :=
    ByteFrequency.cosine_similarity sqrt left.byte_frequency
      right.byte_frequency
  let jaccard := jaccard_similarity left.links right.links
  let exfat :=
    match left.exfat_metadata, right.exfat_metadata with
    | some l, some r => l.match_score r
    | _, _ => 0
  let t0 : ℚ := 0
  let t1 :=
    if cosine ≥ linker.cosine_threshold then t0 + cosine * linker.cosine_weight
    else t0
  let t2 :=
    if jaccard ≥ linker.jaccard_threshold then
      t1 + jaccard * linker.jaccard_weight
    else t1
  let t3 :=
    if exfat ≥ linker.exfat_threshold then t2 + exfat * linker.exfat_weight
    else t2
  ⟨cosine, jaccard, exfat, t3⟩

/-! ## matcher/mod.rs : scan_chunk (component C3)

The regex machinery (the needle pre-filter `finder_regex`, the compiled
`RegexSet`, the per-pattern `captures_iter`, the pattern table, and the title
patterns used by `extract_title_from_context`) belongs to external libraries;
it is abstracted as an oracle so that theorems hold for every possible regex
behaviour.  The control flow of `scan_chunk` itself — windowing, validation,
deduplication, offset arithmetic, emission, final sort — is modelled
exactly. -/

/-- One element of `pattern.regex.captures_iter(window_data)`: the full-match
span and the optional capture-group-1 span, as (start, length) pairs of
window positions. -/
structure RegexCapture where
  fullStart : ℕ
  fullLen : ℕ
  group1 : Option (ℕ × ℕ)
deriving DecidableEq

/-- Oracle bundling all external regex behaviour consumed by scan_chunk. -/
structure MatcherOracle where
  finderMatches : List ℕ → List (ℕ × ℕ)
  setMatches : List ℕ → List ℕ
  captures : ℕ → List ℕ → List RegexCapture
  patternName : ℕ → String
  patternPriority : ℕ → ℕ
  titleAt : List ℕ → ℕ → Option String

/-- EnrichedLink (src/rust-recovery/src/types.rs lines 127-134); `url` and
`video_id` are produced by `String::from_utf8_lossy` over the matched bytes,
kept here as those byte lists (for the validated 11-byte identifier the lossy
conversion is byte-identical, since the identifier bytes are ASCII). -/
structure EnrichedLink where
  url : List ℕ
  video_id : List ℕ
  title : Option String
  offset : ℕ
  pattern_name : String
  confidence : ℚ
deriving DecidableEq

instance : Inhabited EnrichedLink := ⟨⟨[], [], none, 0, "", 0⟩⟩

/-- Capture-processing body of scan_chunk
(src/rust-recovery/src/matcher/mod.rs lines 414-470): extract the group-1
video id, validate it, deduplicate, and emit the enriched link.  The state is
`(seen_ids, results)`. -/
def processCapture (oracle : MatcherOracle) (data : List ℕ)
    (base_offset window_start : ℕ) (window : List ℕ) (deduplicate : Bool)
    (pIdx : ℕ) (st : List (List ℕ) × List EnrichedLink)
    (cap : RegexCapture) : List (List ℕ) × List EnrichedLink :=
  match cap.group1 with
  | none => st
  | some (gStart, gLen) =>
    let video_id_bytes := (window.drop gStart).take gLen
    if ¬ is_valid_video_id video_id_bytes then st
    else if deduplicate ∧ video_id_bytes ∈ st.1 then st
    else
      let seen := if deduplicate then video_id_bytes :: st.1 else st.1
      let url_bytes := (window.drop cap.fullStart).take cap.fullLen
      let abs_offset := base_offset + window_start + cap.fullStart
      let confidence : ℚ := (oracle.patternPriority pIdx : ℚ) / 10
      let title := oracle.titleAt data (window_start + cap.fullStart)
      let link : EnrichedLink :=
        ⟨url_bytes, video_id_bytes, title, abs_offset,
          oracle.patternName pIdx, confidence⟩
      (seen, st.2 ++ [link])

/-- Needle-match body of scan_chunk (src/rust-recovery/src/matcher/mod.rs
lines 392-472): clip the ≤100-before / ≤50-after context window, run the
pattern set, and process every capture of every matched pattern. -/
def processNeedle (oracle : MatcherOracle) (data : List ℕ)
    (base_offset : ℕ) (deduplicate : Bool)
    (st : List (List ℕ) × List EnrichedLink) (m : ℕ × ℕ) :
    List (List ℕ) × List EnrichedLink :=
  let window_start := m.1 - 100
  let window_end := min (m.2 + 50) data.length
  let window := (data.drop window_start).take (window_end - window_start)
  let matched := oracle.setMatches window
  if matched.isEmpty then st
  else
    matched.foldl
      (fun st1 pIdx =>
        (oracle.captures pIdx window).foldl
          (processCapture oracle data base_offset window_start window
            deduplicate pIdx)
          st1)
      st

/-- EnhancedMatcher::scan_chunk (src/rust-recovery/src/matcher/mod.rs lines
379-478): iterate needle matches, accumulate links, and sort the results by
offset (Rust's stable `sort_by` is computed by the stable
`List.insertionSort`).  The matcher's `seen_ids` state starts from the given
set (empty for a fresh clone). -/
def scan_chunk (oracle : MatcherOracle) (seen0 : List (List ℕ))
    (data : List ℕ) (base_offset : ℕ) (deduplicate : Bool) :
    List EnrichedLink :=
  let final :=
    (oracle.finderMatches data).foldl
      (processNeedle oracle data base_offset deduplicate) (seen0, [])
  final.2.insertionSort (fun a b => a.offset ≤ b.offset)

/-! ## Concrete inputs for witnesses and counterexamples -/

/-- Builder for a 512-byte synthetic boot sector with sector-shift 9 and
cluster-shift 0 (the shape used by the repository's own tests): "EXFAT   "
signature at 3, FAT offset/length, cluster-heap offset, cluster count and
root cluster as little-endian u32 fields, all other bytes zero. -/
def mkBootImage (fatSectors heapSectors clusterCount rootCluster : ℕ) :
    List ℕ :=
  (List.range 512).map fun i =>
    if 3 ≤ i ∧ i < 11 then exfatSig.getD (i - 3) 0
    else if 80 ≤ i ∧ i < 84 then fatSectors / 2 ^ ((i - 80) * 8) % 256
    else if 84 ≤ i ∧ i < 88 then 1 / 2 ^ ((i - 84) * 8) % 256
    else if 88 ≤ i ∧ i < 92 then heapSectors / 2 ^ ((i - 88) * 8) % 256
    else if 92 ≤ i ∧ i < 96 then clusterCount / 2 ^ ((i - 92) * 8) % 256
    else if 96 ≤ i ∧ i < 100 then rootCluster / 2 ^ ((i - 96) * 8) % 256
    else if i = 108 then 9
    else if i = 109 then 0
    else 0

/-- The boot sector of the repository's test_find_boot_sector: FAT at sector
1, cluster heap at sector 2, 8 clusters, root cluster 2. -/
def goodBootImage : List ℕ := mkBootImage 1 2 8 2

/-- A 512-byte image whose boot sector declares the FAT at sector 1000: every
structural check passes, yet the derived byte offset 512000 lies far beyond
the 512-byte image. -/
def badBootImage : List ℕ := mkBootImage 1000 2 8 2

/-- A 96-byte entry set: file entry 0x85 with secondary_count = 2, stream
extension 0xC0 with all-zero fields, and a third entry whose type byte 0x00
is not a filename type (0xC1/0x41). -/
def c6Bytes : List ℕ :=
  (List.range 96).map fun i =>
    if i = 0 then 0x85 else if i = 1 then 2 else if i = 32 then 0xC0 else 0

/-- The repository's test_parse_entry_set vector: file entry, stream
extension with name length 5, first cluster 2, data length 10, and one
filename entry spelling "hello" in UTF-16LE. -/
def helloEntrySet : List ℕ :=
  (List.range 96).map fun i =>
    if i = 0 then 0x85
    else if i = 1 then 2
    else if i = 32 then 0xC0
    else if i = 35 then 5
    else if i = 52 then 2
    else if i = 56 then 10
    else if i = 64 then 0xC1
    else if i = 66 then 104
    else if i = 68 then 101
    else if i = 70 then 108
    else if i = 72 then 108
    else if i = 74 then 111
    else 0

/-- Size-0 fragment at offset 0 with node score 10. -/
def fragA : StreamFragment :=
  StreamFragment.from_bytes 0 [] "json" 10 FragmentScore.default

/-- Size-0 fragment at offset 5000000 (farther than the default max_gap of
1 MiB from fragA, so no edge connects them) with node score 10. -/
def fragB : StreamFragment :=
  StreamFragment.from_bytes 5000000 [] "json" 10 FragmentScore.default

/-- Descriptor with empty content (zero frequency vector, so the cosine
channel is exactly 0 without ever calling sqrt), no links, and exFAT metadata
matching itself — so the exFAT channel contributes exactly
1.0 · 0.20 = 1/5 to the linker's total. -/
def descE : FragmentDescriptor :=
  ⟨ByteFrequency.from_bytes [], ∅,
    some ⟨some ['c', 'l', 'i', 'p'], some 2, some 100⟩⟩

/-- The canonical valid video id "dQw4w9WgXcQ" as bytes. -/
def idBytes : List ℕ := [100, 81, 119, 52, 119, 57, 87, 103, 88, 99, 81]

/-- Minimal concrete regex oracle: one needle hit at (0,0), pattern 0 always
matching with full span and group 1 covering the first 11 window bytes. -/
def witnessOracle : MatcherOracle :=
  ⟨fun _ => [(0, 0)], fun _ => [0], fun _ _ => [⟨0, 11, some (0, 11)⟩],
    fun _ => "watch", fun _ => 10, fun _ _ => none⟩

/-- 96-byte haystack: zeros except bytes 40..55, which hold the value 7.  The
16-byte needle `c9Ndl` occurs in it exactly at offset 40 — inside the second
32-byte half of the first 64-byte AVX2 stride. -/
def c9Hay : List ℕ :=
  List.replicate 40 0 ++ List.replicate 16 7 ++ List.replicate 40 0

/-- 16-byte needle of 7s: long enough for the SIMD dispatch (≥ 16 bytes) and
with a first byte below 0x80, so no high bit ever sets its mask2 lane. -/
def c9Ndl : List ℕ := List.replicate 16 7

/-! ## Theorems -/

/-- C3: for every opened image and every (offset, len) request, get_slice
fails with InvalidOffset exactly when offset ≥ image size; fails with
InvalidSize exactly when offset < size but offset + len overflows u64 or
exceeds the image size; and otherwise succeeds returning a read-only view of
exactly len bytes starting at offset — so every accepted pair satisfies
offset < size and offset + len ≤ size. -/
theorem C3_get_slice_bounds (image : List ℕ) (offset len : ℕ)
    (_hoff : offset ≤ U64_MAX) (_hlen : len ≤ U64_MAX) :
    (get_slice image offset len =
        .error (.invalidOffset offset image.length) ↔
      offset ≥ image.length)
    ∧ (get_slice image offset len =
        .error (.invalidSize offset len image.length) ↔
      offset < image.length ∧
        (offset + len > U64_MAX ∨ offset + len > image.length))
    ∧ (∀ s, get_slice image offset len = .ok s →
        offset < image.length ∧ offset + len ≤ image.length ∧
        s.offset = offset ∧ s.data = (image.drop offset).take len ∧
        s.data.length = len) := by
  simp only [get_slice]
  by_cases h1 : offset ≥ image.length
  · rw [if_pos h1]
    exact ⟨⟨fun _ => h1, fun _ => rfl⟩,
      ⟨fun he => absurd he (by simp), fun hc => absurd h1 (by omega)⟩,
      fun s hs => absurd hs (by simp)⟩
  · rw [if_neg h1]
    by_cases h2 : offset + len > U64_MAX
    · rw [if_pos h2]
      exact ⟨⟨fun he => absurd he (by simp), fun hc => absurd hc h1⟩,
        ⟨fun _ => ⟨by omega, Or.inl h2⟩, fun _ => rfl⟩,
        fun s hs => absurd hs (by simp)⟩
    · rw [if_neg h2]
      by_cases h3 : offset + len > image.length
      · rw [if_pos h3]
        exact ⟨⟨fun he => absurd he (by simp), fun hc => absurd hc h1⟩,
          ⟨fun _ => ⟨by omega, Or.inr h3⟩, fun _ => rfl⟩,
          fun s hs => absurd hs (by simp)⟩
      · rw [if_neg h3]
        refine ⟨⟨fun he => absurd he (by simp), fun hc => absurd hc h1⟩,
          ⟨fun he => absurd he (by simp), fun hc => by omega⟩,
          fun s hs => ?_⟩
        have hse : s = ⟨offset, (image.drop offset).take len⟩ :=
          (Except.ok.inj hs).symm
        subst hse
        refine ⟨by omega, by omega, rfl, rfl, ?_⟩
        simp only [List.length_take, List.length_drop]
        omega

/-- Witness for C3 at a concrete accepted request: image of five bytes,
offset 1, length 3. -/
theorem C3_get_slice_bounds_witness :
    1 < ([9, 8, 7, 6, 5] : List ℕ).length ∧
    1 + 3 ≤ ([9, 8, 7, 6, 5] : List ℕ).length ∧
    (⟨1, [8, 7, 6]⟩ : FragmentSlice).data.length = 3 := by
  have h :=
    (C3_get_slice_bounds [9, 8, 7, 6, 5] 1 3 (by norm_num [U64_MAX])
      (by norm_num [U64_MAX])).2.2 ⟨1, [8, 7, 6]⟩ (by rfl)
  exact ⟨h.1, h.2.1, h.2.2.2.2⟩

/-- C5: extract_file_content terminates (the cluster-walk recursion is
well-founded because every completed iteration reads at least one byte, which
is exactly the source's stopping structure: the walk stops on cluster < 2,
cluster ≥ 0xFFFFFFF7, a revisited cluster, reading past the end of the image,
or remaining = 0), and the returned content never exceeds
min(file_size, 250 MiB) bytes. -/
theorem C5_extract_bounded (data : List ℕ) (params : ExFatBootParams)
    (first_cluster file_size : ℕ) (no_fat_chain : Bool) :
    (extract_file_content data params first_cluster file_size
      no_fat_chain).length ≤ min file_size MAX_EXTRACT_SIZE := by
  simp only [extract_file_content]
  split_ifs with h1
  · simp
  · exact List.length_take_le _ _

/-- Auxiliary specification of the window scan: a returned index is a match
and every earlier index in the scanned range is not; a `none` result means no
index in the scanned range matches. -/
theorem scanWindows_spec (hay nd : List ℕ) :
    ∀ fuel start,
      (∀ j, scanWindows hay nd start fuel = some j →
        start ≤ j ∧ matchAt hay nd j = true ∧
        ∀ k, start ≤ k → k < j → matchAt hay nd k = false)
      ∧ (scanWindows hay nd start fuel = none →
        ∀ k, start ≤ k → k < start + fuel → matchAt hay nd k = false) := by
  intro fuel
  induction fuel with
  | zero =>
    intro start
    constructor
    · intro j h; simp [scanWindows] at h
    · intro _ k hk1 hk2; omega
  | succ n ih =>
    intro start
    constructor
    · intro j h
      by_cases hm : matchAt hay nd start = true
      · simp [scanWindows, hm] at h
        subst h
        exact ⟨Nat.le_refl _, hm, fun k hk1 hk2 => absurd hk1 (by omega)⟩
      · simp [scanWindows, hm] at h
        obtain ⟨hle, hmj, hall⟩ := (ih (start + 1)).1 j h
        refine ⟨by omega, hmj, fun k hk1 hk2 => ?_⟩
        rcases Nat.eq_or_lt_of_le hk1 with rfl | hlt
        · exact Bool.of_not_eq_true hm
        · exact hall k (by omega) hk2
    · intro h k hk1 hk2
      by_cases hm : matchAt hay nd start = true
      · simp [scanWindows, hm] at h
      · simp [scanWindows, hm] at h
        rcases Nat.eq_or_lt_of_le hk1 with rfl | hlt
        · exact Bool.of_not_eq_true hm
        · exact (ih (start + 1)).2 h k (by omega) (by omega)

/-- Link between the window-match test and the occurrence predicate for a
non-empty needle: a match forces the needle to fit inside the haystack. -/
theorem matchAt_occursAt (hay nd : List ℕ) (i : ℕ) (hnd : nd ≠ []) :
    matchAt hay nd i = true ↔ occursAt hay nd i := by
  constructor
  · intro h
    simp only [matchAt, decide_eq_true_eq] at h
    have hlen : ((hay.drop i).take nd.length).length = nd.length := by rw [h]
    rw [List.length_take, List.length_drop] at hlen
    have hpos : 0 < nd.length := List.length_pos.mpr hnd
    refine ⟨by omega, h⟩
  · intro h
    simp only [matchAt, decide_eq_true_eq]
    exact h.2

/-- The scalar window scan is a correct first-occurrence search for every
non-empty needle: a returned offset is the least occurrence, and none means
the needle does not occur.  The divergence exhibited for C9 is therefore
introduced by the SIMD dispatch paths, not by the scalar reference. -/
theorem find_pattern_scalar_first (hay nd : List ℕ) (hnd : nd ≠ []) :
    (∀ i, find_pattern_scalar hay nd = some i →
      occursAt hay nd i ∧ ∀ j, j < i → ¬ occursAt hay nd j)
    ∧ (find_pattern_scalar hay nd = none → ∀ i, ¬ occursAt hay nd i) := by
  constructor
  · intro i h
    obtain ⟨_, hm, hall⟩ := (scanWindows_spec hay nd _ 0).1 i h
    refine ⟨(matchAt_occursAt hay nd i hnd).mp hm, fun j hj hocc => ?_⟩
    have := hall j (Nat.zero_le j) hj
    rw [(matchAt_occursAt hay nd j hnd).mpr hocc] at this
    simp at this
  · intro h i hocc
    have hrange : i < hay.length - nd.length + 1 := by
      have h1 := hocc.1
      have hpos : 0 < nd.length := List.length_pos.mpr hnd
      omega
    have := (scanWindows_spec hay nd _ 0).2 h i (Nat.zero_le i)
      (by omega)
    rw [(matchAt_occursAt hay nd i hnd).mpr hocc] at this
    simp at this

/-- C9: the spec claims that find_pattern_simd returns the smallest offset at
which the needle occurs, for every haystack and needle.  The code diverges
from this on its AVX2 dispatch path, taken for needles of 16 bytes or more
whenever AVX2 is detected: find_pattern_avx2_asm computes its second movemask
from the raw data chunk instead of the comparison result (the asm reads
`vpmovmskb mask2, chunk2` at src/rust-recovery/src/simd_search_asm.rs line
50, while the freshly computed `cmp2` is discarded), so an occurrence whose
first byte is below 0x80 lying in the second 32-byte half of a fully
processed 64-byte stride is never found.  Concretely: the 16-byte needle
c9Ndl occurs in the 96-byte haystack c9Hay at offset 40; the scalar reference
and the no-SIMD dispatch return some 40, but with AVX2 detected the program
returns none.  A second, minor divergence: the empty needle occurs trivially
at offset 0 of any haystack, yet the guard returns none for it. -/
theorem C9_simd_divergence :
    occursAt c9Hay c9Ndl 40
    ∧ find_pattern_scalar c9Hay c9Ndl = some 40
    ∧ find_pattern_simd ⟨false, false⟩ c9Hay c9Ndl = some 40
    ∧ find_pattern_simd ⟨true, true⟩ c9Hay c9Ndl = none
    ∧ occursAt [97] [] 0
    ∧ find_pattern_simd ⟨true, true⟩ [97] [] = none := by
  decide

/-- C10: for every byte input whose whitespace-trimmed UTF-8 text is 10 bytes
long or shorter, is_probably_json and is_valid_json both return false — so
short well-formed JSON documents such as "\x7b\x7d" are classified as not
JSON (see the witness); and JSON validity additionally requires the input to
start with a brace or bracket after trimming and the string-aware
brace/bracket balance check to pass. -/
theorem C10_short_json_rejected (data : List ℕ) (parse : List Char → Bool) :
    ((∀ text, utf8Decode data = some text →
        (utf8Encode (rustTrim text)).length ≤ 10) →
      is_probably_json data = false ∧ is_valid_json parse data = false)
    ∧ (is_valid_json parse data = true →
        is_probably_json data = true ∧
        (∃ text, utf8Decode data = some text ∧
          ((rustTrim text).head? = some (Char.ofNat 123) ∨
            (rustTrim text).head? = some (Char.ofNat 91)) ∧
          ((utf8Encode (rustTrim text)).foldl jsonScanStep
            ⟨0, 0, false, false⟩).brace = 0 ∧
          ((utf8Encode (rustTrim text)).foldl jsonScanStep
            ⟨0, 0, false, false⟩).bracket = 0 ∧
          (utf8Encode (rustTrim text)).length > 10)) := by
  have probablyElim : is_probably_json data = true →
      ∃ text, utf8Decode data = some text ∧
        ((rustTrim text).head? = some (Char.ofNat 123) ∨
          (rustTrim text).head? = some (Char.ofNat 91)) ∧
        ((utf8Encode (rustTrim text)).foldl jsonScanStep
          ⟨0, 0, false, false⟩).brace = 0 ∧
        ((utf8Encode (rustTrim text)).foldl jsonScanStep
          ⟨0, 0, false, false⟩).bracket = 0 ∧
        (utf8Encode (rustTrim text)).length > 10 := by
    intro hp
    simp only [is_probably_json] at hp
    split at hp
    · exact absurd hp (by simp)
    · split at hp
      · exact absurd hp (by simp)
      · rename_i text heq
        split at hp
        · exact absurd hp (by simp)
        · rename_i hcond
          rw [not_not] at hcond
          have hfacts := of_decide_eq_true hp
          exact ⟨text, heq, hcond, hfacts.1, hfacts.2.1, hfacts.2.2⟩
  constructor
  · intro hlen
    have hPfalse : is_probably_json data = false := by
      cases hPb : is_probably_json data with
      | false => rfl
      | true =>
        obtain ⟨text, hdec, _, _, _, hgt⟩ := probablyElim hPb
        have := hlen text hdec
        omega
    refine ⟨hPfalse, ?_⟩
    simp only [is_valid_json, hPfalse]
    simp
  · intro hv
    have hp : is_probably_json data = true := by
      cases hPb : is_probably_json data with
      | true => rfl
      | false =>
        simp only [is_valid_json, hPb] at hv
        simp at hv
    exact ⟨hp, probablyElim hp⟩

/-- Witness for C10: the two-byte well-formed JSON document of one open and
one close brace is rejected by both checks, for every possible strict
parser — here instantiated with the always-accepting parser. -/
theorem C10_short_json_rejected_witness :
    is_probably_json [123, 125] = false ∧
    is_valid_json (fun _ => true) [123, 125] = false :=
  (C10_short_json_rejected [123, 125] (fun _ => true)).1 (by
    intro text h
    have hd : utf8Decode [123, 125] =
        some [Char.ofNat 123, Char.ofNat 125] := by decide
    rw [hd] at h
    cases Option.some.inj h
    decide)

/-- Counterexample to C2: FragmentLinker::score applies no physical-distance
decay and never skips a pair.  The descriptor pair (descE, descE) — whatever
the physical distance between the two fragments, e.g. Δbytes = 100 MiB —
receives total 1/5 from the code (the exFAT channel at threshold), whereas
the claimed formula demands total = 1/5 · exp(−10·Δ/100 MiB) = 1/5 · exp(−10)
≠ 1/5 and, since exp(−10) < 0.1, mandates that the pair be skipped
altogether.  (The decay with k = 10 and the 0.1 skip exist only in the
separate clustering component src/accelerator/src/clusterer.rs, not in the
linker.) -/
theorem C2_counterexample :
    (FragmentLinker.score linkerDefault descE descE ratSqrt).total_score =
      1 / 5
    ∧ ((1 : ℝ) / 5 ≠ 1 / 5 * Real.exp (-10))
    ∧ Real.exp (-10) < 1 / 10 := by
  have hcos : ByteFrequency.cosine_similarity ratSqrt
      (ByteFrequency.from_bytes []) (ByteFrequency.from_bytes []) = 0 := by
    simp [ByteFrequency.from_bytes, ByteFrequency.cosine_similarity,
      List.map_replicate]
  have hjac : jaccard_similarity (∅ : Finset String) ∅ = 0 := by
    simp [jaccard_similarity]
  refine ⟨?_, ?_, ?_⟩
  · simp only [FragmentLinker.score, descE, hcos, hjac, linkerDefault]
    norm_num [ExFatMetadata.match_score]
  · have hexp1 : Real.exp (-10) < 1 := Real.exp_lt_one_iff.mpr (by norm_num)
    have hexp0 : 0 < Real.exp (-10) := Real.exp_pos _
    have hlt : (1 : ℝ) / 5 * Real.exp (-10) < 1 / 5 := by nlinarith
    exact ne_of_gt hlt
  · have h1 : (11 : ℝ) ≤ Real.exp 10 := by
      have := Real.add_one_le_exp (10 : ℝ)
      linarith
    rw [Real.exp_neg]
    calc (Real.exp 10)⁻¹ ≤ (11 : ℝ)⁻¹ := inv_anti₀ (by norm_num) h1
      _ < 1 / 10 := by norm_num

/-- C2 (amended): for every pair of fragment descriptors, the linker's total
score equals the sum of weight times channel value over exactly the channels
whose value meets its threshold; no physical-distance decay multiplies the
score and no pair is skipped (the decay lives in the separate clustering
component). -/
theorem C2_linker_score_amended (linker : FragmentLinker)
    (l r : FragmentDescriptor) (sqrt : ℚ → ℚ) :
    (FragmentLinker.score linker l r sqrt).total_score =
      (if (FragmentLinker.score linker l r sqrt).cosine_similarity ≥
          linker.cosine_threshold then
        (FragmentLinker.score linker l r sqrt).cosine_similarity *
          linker.cosine_weight
      else 0) +
      (if (FragmentLinker.score linker l r sqrt).jaccard_similarity ≥
          linker.jaccard_threshold then
        (FragmentLinker.score linker l r sqrt).jaccard_similarity *
          linker.jaccard_weight
      else 0) +
      (if (FragmentLinker.score linker l r sqrt).exfat_similarity ≥
          linker.exfat_threshold then
        (FragmentLinker.score linker l r sqrt).exfat_similarity *
          linker.exfat_weight
      else 0) := by
  simp only [FragmentLinker.score]
  split_ifs <;> ring

/-- Counterexample to C6: a 96-byte entry set whose third entry has type byte
0x00 — not a filename entry type 0xC1/0x41 — is still parsed successfully
(the filename loop merely breaks), returning an entry with an empty filename
and consumed count 3, where the claim requires a "not found" result. -/
theorem C6_counterexample :
    parse_entry_set c6Bytes 0 = some (⟨0, none, false, [], 0, 0, false⟩, 3)
    ∧ c6Bytes.get? 64 = some 0 := by decide

/-- C6 (amended): parse_entry_set returns an entry only for a buffer holding
a declared set of at least 3 directory entries — a first entry of type 0x85
or 0x05 with secondary count ≥ 2 and enough bytes for all declared entries,
followed by a stream-extension entry of type 0xC0 or 0x40, with the
first_cluster/size consistency check passing; filename entries of type
0xC1/0x41 are consumed while present, but at least one is NOT required (the
filename loop breaks silently on any other entry type). -/
theorem C6_parse_requirements (data : List ℕ) (base : ℕ) (e : ExFatEntry)
    (n : ℕ) (h : parse_entry_set data base = some (e, n)) :
    (∃ ft, data.get? 0 = some ft ∧ (ft = 0x85 ∨ ft = 0x05)) ∧
    (∃ sc, data.get? 1 = some sc ∧ 2 ≤ sc ∧ n = 1 + sc ∧
      n * 32 ≤ data.length) ∧
    (∃ st2, data.get? 32 = some st2 ∧ (st2 = 0xC0 ∨ st2 = 0x40)) ∧
    ¬ (e.first_cluster < 2 ∧ 0 < e.size) := by
  simp only [parse_entry_set] at h
  split at h
  · exact absurd h (by simp)
  · rename_i hlen32
    split at h
    · exact absurd h (by simp)
    · rename_i ft hft
      split at h
      · exact absurd h (by simp)
      · rename_i hftype
        split at h
        · exact absurd h (by simp)
        · rename_i sc hsc
          split at h
          · exact absurd h (by simp)
          · rename_i hsc2
            split at h
            · exact absurd h (by simp)
            · rename_i hblen
              split at h
              · exact absurd h (by simp)
              · rename_i st2 hst2
                split at h
                · exact absurd h (by simp)
                · rename_i hstype
                  split at h
                  · rename_i gf nl hgf hnl
                    split at h
                    · rename_i fc fs hfc hfs
                      split at h
                      · exact absurd h (by simp)
                      · rename_i hreject
                        simp only [Option.some.injEq, Prod.mk.injEq] at h
                        obtain ⟨he, hn⟩ := h
                        subst hn
                        refine ⟨⟨ft, hft, by omega⟩,
                          ⟨sc, hsc, by omega, rfl, by omega⟩,
                          ⟨st2, hst2, by omega⟩, ?_⟩
                        rw [← he]
                        simpa using hreject
                    · exact absurd h (by simp)
                  · exact absurd h (by simp)

/-- Witness for C6 at the repository's own "hello" entry-set test vector. -/
theorem C6_parse_requirements_witness :
    (∃ ft, helloEntrySet.get? 0 = some ft ∧ (ft = 0x85 ∨ ft = 0x05)) ∧
    (∃ sc, helloEntrySet.get? 1 = some sc ∧ 2 ≤ sc ∧ (3 : ℕ) = 1 + sc ∧
      3 * 32 ≤ helloEntrySet.length) ∧
    (∃ st2, helloEntrySet.get? 32 = some st2 ∧ (st2 = 0xC0 ∨ st2 = 0x40)) ∧
    ¬ ((⟨4096, none, false, ['h', 'e', 'l', 'l', 'o'], 10, 2, false⟩ :
        ExFatEntry).first_cluster < 2 ∧
      0 < (⟨4096, none, false, ['h', 'e', 'l', 'l', 'o'], 10, 2, false⟩ :
        ExFatEntry).size) :=
  C6_parse_requirements helloEntrySet 4096
    ⟨4096, none, false, ['h', 'e', 'l', 'l', 'o'], 10, 2, false⟩ 3 (by decide)

/-- Structural invariants guaranteed by a successful parse_boot_sector_at:
power-of-two sector size with shift in [9, 12], cluster size between the
sector size and 32 MiB, and strictly positive FAT and cluster-heap offsets. -/
theorem parse_boot_sector_at_inv (data : List ℕ) (off : ℕ)
    (p : ExFatBootParams) (h : parse_boot_sector_at data off = some p) :
    (∃ s, 9 ≤ s ∧ s ≤ 12 ∧ p.sector_size = 2 ^ s) ∧
    p.sector_size ≤ p.cluster_size ∧ p.cluster_size ≤ MAX_CLUSTER_SIZE ∧
    0 < p.fat_offset ∧ 0 < p.cluster_heap_offset := by
  simp only [parse_boot_sector_at] at h
  split at h
  · exact absurd h (by simp)
  · split at h
    · exact absurd h (by simp)
    · split at h
      · rename_i bps scs hbq hsq
        split at h
        · exact absurd h (by simp)
        · rename_i hshift
          split at h
          · exact absurd h (by simp)
          · rename_i hscs
            split at h
            · exact absurd h (by simp)
            · rename_i hcs
              split at h
              · rename_i fos fls chos cc rdc hfos hfls hchos hcc hrdc
                split at h
                · exact absurd h (by simp)
                · split at h
                  · exact absurd h (by simp)
                  · split at h
                    · exact absurd h (by simp)
                    · split at h
                      · exact absurd h (by simp)
                      · split at h
                        · exact absurd h (by simp)
                        · rename_i hpos
                          simp only [Option.some.injEq] at h
                          subst h
                          push_neg at hcs hpos hshift
                          refine ⟨⟨bps, by omega, by omega, rfl⟩, ?_, ?_,
                            ?_, ?_⟩
                          · exact Nat.le_mul_of_pos_right _
                              (Nat.pos_pow_of_pos _ (by omega))
                          · exact hcs.2
                          · exact Nat.pos_of_ne_zero hpos.1
                          · exact Nat.pos_of_ne_zero hpos.2
              · exact absurd h (by simp)
      · exact absurd h (by simp)

/-- Every boot-parameter value produced by the 512-byte scan comes from a
successful parse_boot_sector_at call. -/
theorem bootScan_from_parse (data : List ℕ) :
    ∀ offs p, bootScan data offs = some p →
      ∃ off, parse_boot_sector_at data off = some p := by
  intro offs
  induction offs with
  | nil => intro p h; simp [bootScan] at h
  | cons off rest ih =>
    intro p h
    simp only [bootScan] at h
    split at h
    · exact absurd h (by simp)
    · split at h
      · split at h
        · rename_i q hq
          exact ⟨off, hq.trans h⟩
        · exact ih p h
      · exact ih p h

/-- C7 (amended): every ExFatBootParams value returned by find_boot_sector
satisfies sector_size = 2^s with s ∈ [9, 12], cluster_size between the
sector size and 32 MiB, and strictly positive fat_offset and
cluster_heap_offset.  The offsets are NOT checked against the image length
(see the counterexample), so the "lie within the image" part of the original
claim is dropped. -/
theorem C7_boot_params_invariants (data : List ℕ) (p : ExFatBootParams)
    (h : find_boot_sector data = some p) :
    (∃ s, 9 ≤ s ∧ s ≤ 12 ∧ p.sector_size = 2 ^ s) ∧
    p.sector_size ≤ p.cluster_size ∧ p.cluster_size ≤ MAX_CLUSTER_SIZE ∧
    0 < p.fat_offset ∧ 0 < p.cluster_heap_offset := by
  simp only [find_boot_sector] at h
  split at h
  · rename_i q hq
    exact parse_boot_sector_at_inv data 0 p (hq.trans h)
  · obtain ⟨off, hoff⟩ := bootScan_from_parse data _ p h
    exact parse_boot_sector_at_inv data off p hoff

/-- Witness for C7 at the repository's own synthetic boot sector (sector
shift 9, cluster shift 0, FAT at sector 1, heap at sector 2). -/
theorem C7_boot_params_invariants_witness :
    (∃ s, 9 ≤ s ∧ s ≤ 12 ∧
      (⟨512, 512, 512, 1, 1024, 8, 2, 0⟩ : ExFatBootParams).sector_size =
        2 ^ s) ∧
    (⟨512, 512, 512, 1, 1024, 8, 2, 0⟩ : ExFatBootParams).sector_size ≤
      (⟨512, 512, 512, 1, 1024, 8, 2, 0⟩ : ExFatBootParams).cluster_size ∧
    (⟨512, 512, 512, 1, 1024, 8, 2, 0⟩ : ExFatBootParams).cluster_size ≤
      MAX_CLUSTER_SIZE ∧
    0 < (⟨512, 512, 512, 1, 1024, 8, 2, 0⟩ : ExFatBootParams).fat_offset ∧
    0 < (⟨512, 512, 512, 1, 1024, 8, 2, 0⟩ :
      ExFatBootParams).cluster_heap_offset :=
  C7_boot_params_invariants goodBootImage ⟨512, 512, 512, 1, 1024, 8, 2, 0⟩
    (by decide)

/-- Counterexample to the "within the image" part of C7: a 512-byte image
whose parsed fat_offset is 512000, far beyond the image length. -/
theorem C7_counterexample :
    (find_boot_sector badBootImage).map ExFatBootParams.fat_offset =
      some 512000
    ∧ badBootImage.length = 512 := by decide

/-- Preservation of a predicate along a left fold. -/
theorem foldl_preserve {α : Type} {σ : Type} (f : σ → α → σ) (Q : σ → Prop)
    (hstep : ∀ s a, Q s → Q (f s a)) :
    ∀ (l : List α) (s : σ), Q s → Q (l.foldl f s) := by
  intro l
  induction l with
  | nil => intro s hs; exact hs
  | cons a t ih => intro s hs; exact ih _ (hstep s a hs)

/-- Capture processing only appends links whose identifier passed
is_valid_video_id. -/
theorem processCapture_valid (oracle : MatcherOracle) (data : List ℕ)
    (base ws : ℕ) (window : List ℕ) (dedup : Bool) (pIdx : ℕ)
    (st : List (List ℕ) × List EnrichedLink) (cap : RegexCapture)
    (hst : ∀ l ∈ st.2,
      l.video_id.length = 11 ∧ ∀ b ∈ l.video_id, isIdByte b = true) :
    ∀ l ∈ (processCapture oracle data base ws window dedup pIdx st cap).2,
      l.video_id.length = 11 ∧ ∀ b ∈ l.video_id, isIdByte b = true := by
  intro l hl
  simp only [processCapture] at hl
  split at hl
  · exact hst l hl
  · split at hl
    · exact hst l hl
    · rename_i hvalid
      split at hl
      · exact hst l hl
      · rw [List.mem_append] at hl
        rcases hl with hl | hl
        · exact hst l hl
        · simp only [List.mem_singleton] at hl
          subst hl
          rw [not_not] at hvalid
          simp only [is_valid_video_id, Bool.and_eq_true, decide_eq_true_eq,
            List.all_eq_true] at hvalid
          exact ⟨hvalid.1, fun b hb => hvalid.2 b hb⟩

/-- Needle processing preserves identifier validity of all emitted links. -/
theorem processNeedle_valid (oracle : MatcherOracle) (data : List ℕ)
    (base : ℕ) (dedup : Bool) (st : List (List ℕ) × List EnrichedLink)
    (m : ℕ × ℕ)
    (hst : ∀ l ∈ st.2,
      l.video_id.length = 11 ∧ ∀ b ∈ l.video_id, isIdByte b = true) :
    ∀ l ∈ (processNeedle oracle data base dedup st m).2,
      l.video_id.length = 11 ∧ ∀ b ∈ l.video_id, isIdByte b = true := by
  simp only [processNeedle]
  split
  · exact hst
  · refine foldl_preserve _
      (fun (s : List (List ℕ) × List EnrichedLink) => ∀ l ∈ s.2,
        l.video_id.length = 11 ∧ ∀ b ∈ l.video_id, isIdByte b = true)
      ?_ _ _ hst
    intro s pIdx hs
    refine foldl_preserve _
      (fun (s' : List (List ℕ) × List EnrichedLink) => ∀ l ∈ s'.2,
        l.video_id.length = 11 ∧ ∀ b ∈ l.video_id, isIdByte b = true)
      ?_ _ _ hs
    intro s' cap hs'
    exact processCapture_valid _ _ _ _ _ _ _ _ _ hs'

/-- C8: every token emitted by the matcher's scan_chunk has an identifier
(video_id) of length exactly 11 whose bytes are all ASCII alphanumerics,
'-' or '_' — for every possible behaviour of the external regex engines. -/
theorem C8_video_id_valid (oracle : MatcherOracle) (seen0 : List (List ℕ))
    (data : List ℕ) (base : ℕ) (dedup : Bool) :
    ∀ link ∈ scan_chunk oracle seen0 data base dedup,
      link.video_id.length = 11 ∧ ∀ b ∈ link.video_id, isIdByte b = true := by
  intro link hl
  simp only [scan_chunk] at hl
  rw [List.mem_insertionSort] at hl
  refine foldl_preserve _
    (fun (s : List (List ℕ) × List EnrichedLink) => ∀ l ∈ s.2,
      l.video_id.length = 11 ∧ ∀ b ∈ l.video_id, isIdByte b = true)
    ?_ _ _ ?_ link hl
  · intro s m hs
    exact processNeedle_valid _ _ _ _ _ _ hs
  · intro l hl0
    exact absurd hl0 (List.not_mem_nil l)

/-- Concrete evaluation of scan_chunk with the minimal oracle on the
canonical video id: exactly one link is emitted. -/
theorem scan_chunk_eval :
    scan_chunk witnessOracle [] idBytes 0 true =
      [⟨idBytes, idBytes, none, 0, "watch", 10 / 10⟩] := by
  have hv : is_valid_video_id idBytes = true := by decide
  simp [scan_chunk, processNeedle, processCapture, witnessOracle, idBytes,
    hv]

/-- Witness for C8: the link emitted by the concrete scan has a valid
11-character identifier. -/
theorem C8_video_id_valid_witness :
    (((scan_chunk witnessOracle [] idBytes 0 true).get? 0).getD
      default).video_id.length = 11 ∧
    ∀ b ∈ (((scan_chunk witnessOracle [] idBytes 0 true).get? 0).getD
      default).video_id, isIdByte b = true := by
  have hmem : (((scan_chunk witnessOracle [] idBytes 0 true).get? 0).getD
      default) ∈ scan_chunk witnessOracle [] idBytes 0 true := by
    rw [scan_chunk_eval]
    simp
  exact C8_video_id_valid witnessOracle [] idBytes 0 true _ hmem

/-- Specification of the max_by reduction over enumerated scores: a returned
pair is either the surviving initial accumulator (in which case every listed
score is strictly below it, since ties replace the accumulator) or a listed
entry that is maximal, with every LATER entry strictly smaller — the
last-maximum semantics of Rust's `Iterator::max_by`. -/
theorem chooseBestAux_spec :
    ∀ (l : List ℚ) (n : ℕ) (acc : Option (ℕ × ℚ)) (i : ℕ) (s : ℚ),
      chooseBestAux acc (List.enumFrom n l) = some (i, s) →
      (acc = some (i, s) ∧ ∀ k t, l.get? k = some t → t < s) ∨
      (n ≤ i ∧ l.get? (i - n) = some s ∧
        (∀ k t, l.get? k = some t → t ≤ s) ∧
        (∀ k t, i - n < k → l.get? k = some t → t < s) ∧
        (∀ j u, acc = some (j, u) → u ≤ s)) := by
  intro l
  induction l with
  | nil =>
    intro n acc i s h
    simp only [List.enumFrom, chooseBestAux] at h
    exact Or.inl ⟨h, fun k t hk => absurd hk (by simp)⟩
  | cons a l ih =>
    intro n acc i s h
    cases acc with
    | none =>
      have h' : chooseBestAux (some (n, a)) (List.enumFrom (n + 1) l) =
          some (i, s) := h
      rcases ih (n + 1) (some (n, a)) i s h' with
        ⟨heq, hlt⟩ | ⟨hni, hget, hle, hgt, hacc⟩
      · have hpair : (n, a) = (i, s) := Option.some.inj heq
        obtain ⟨rfl, rfl⟩ : n = i ∧ a = s :=
          ⟨congrArg Prod.fst hpair, congrArg Prod.snd hpair⟩
        refine Or.inr ⟨Nat.le_refl _, by simp, ?_, ?_, ?_⟩
        · intro k t hk
          cases k with
          | zero => exact le_of_eq (Option.some.inj hk).symm
          | succ k => exact le_of_lt (hlt k t hk)
        · intro k t hik hk
          cases k with
          | zero => omega
          | succ k => exact hlt k t hk
        · intro j u hju
          exact absurd hju (by simp)
      · refine Or.inr ⟨by omega, ?_, ?_, ?_, ?_⟩
        · have hidx : i - n = (i - (n + 1)) + 1 := by omega
          rw [hidx, List.get?_cons_succ]
          exact hget
        · intro k t hk
          cases k with
          | zero =>
            have hat : a = t := Option.some.inj hk
            exact hat ▸ hacc n a rfl
          | succ k => exact hle k t hk
        · intro k t hik hk
          cases k with
          | zero => omega
          | succ k => exact hgt k t (by omega) hk
        · intro j u hju
          exact absurd hju (by simp)
    | some q =>
      by_cases hqa : q.2 > a
      · have h' : chooseBestAux (some q) (List.enumFrom (n + 1) l) =
            some (i, s) := by
          have : (if q.2 > a then some q else some (n, a)) = some q :=
            if_pos hqa
          simpa [chooseBestAux, List.enumFrom, this] using h
        rcases ih (n + 1) (some q) i s h' with
          ⟨heq, hlt⟩ | ⟨hni, hget, hle, hgt, hacc⟩
        · have hq : q = (i, s) := Option.some.inj heq
          refine Or.inl ⟨by rw [hq], ?_⟩
          intro k t hk
          cases k with
          | zero =>
            have hat : a = t := Option.some.inj hk
            have has : a < s := by rw [hq] at hqa; exact hqa
            exact hat ▸ has
          | succ k => exact hlt k t hk
        · refine Or.inr ⟨by omega, ?_, ?_, ?_, ?_⟩
          · have hidx : i - n = (i - (n + 1)) + 1 := by omega
            rw [hidx, List.get?_cons_succ]
            exact hget
          · intro k t hk
            cases k with
            | zero =>
              have hat : a = t := Option.some.inj hk
              have hqs : q.2 ≤ s := hacc q.1 q.2 rfl
              exact hat ▸ (le_of_lt (lt_of_lt_of_le hqa hqs))
            | succ k => exact hle k t hk
          · intro k t hik hk
            cases k with
            | zero => omega
            | succ k => exact hgt k t (by omega) hk
          · intro j u hju
            have hq : q = (j, u) := Option.some.inj hju
            have := hacc q.1 q.2 rfl
            rw [hq] at this
            exact this
      · have h' : chooseBestAux (some (n, a)) (List.enumFrom (n + 1) l) =
            some (i, s) := by
          have : (if q.2 > a then some q else some (n, a)) = some (n, a) :=
            if_neg hqa
          simpa [chooseBestAux, List.enumFrom, this] using h
        push_neg at hqa
        rcases ih (n + 1) (some (n, a)) i s h' with
          ⟨heq, hlt⟩ | ⟨hni, hget, hle, hgt, hacc⟩
        · have hpair : (n, a) = (i, s) := Option.some.inj heq
          obtain ⟨rfl, rfl⟩ : n = i ∧ a = s :=
            ⟨congrArg Prod.fst hpair, congrArg Prod.snd hpair⟩
          refine Or.inr ⟨Nat.le_refl _, by simp, ?_, ?_, ?_⟩
          · intro k t hk
            cases k with
            | zero => exact le_of_eq (Option.some.inj hk).symm
            | succ k => exact le_of_lt (hlt k t hk)
          · intro k t hik hk
            cases k with
            | zero => omega
            | succ k => exact hlt k t hk
          · intro j u hju
            have hq : q = (j, u) := Option.some.inj hju
            have : q.2 ≤ a := hqa
            rw [hq] at this
            exact this
        · refine Or.inr ⟨by omega, ?_, ?_, ?_, ?_⟩
          · have hidx : i - n = (i - (n + 1)) + 1 := by omega
            rw [hidx, List.get?_cons_succ]
            exact hget
          · intro k t hk
            cases k with
            | zero =>
              have hat : a = t := Option.some.inj hk
              exact hat ▸ hacc n a rfl
            | succ k => exact hle k t hk
          · intro k t hik hk
            cases k with
            | zero => omega
            | succ k => exact hgt k t (by omega) hk
          · intro j u hju
            have hq : q = (j, u) := Option.some.inj hju
            have hqs : q.2 ≤ a := hqa
            have has : a ≤ s := hacc n a rfl
            rw [hq] at hqs
            exact le_trans hqs has

/-- Specification of the enumerate-and-max_by step of find_best_path: the
returned index holds the score, every score is at most it, and every score
at a LARGER index is strictly below it (ties go to the last index). -/
theorem chooseBest_spec (l : List ℚ) (i : ℕ) (s : ℚ)
    (h : chooseBest l = some (i, s)) :
    l.get? i = some s ∧ (∀ k t, l.get? k = some t → t ≤ s) ∧
    (∀ k t, i < k → l.get? k = some t → t < s) := by
  have hres := chooseBestAux_spec l 0 none i s h
  rcases hres with ⟨heq, _⟩ | ⟨_, hget, hle, hgt, _⟩
  · exact absurd heq (by simp)
  · rw [Nat.sub_zero] at hget
    exact ⟨hget, hle, fun k t hik hk => hgt k t (by omega) hk⟩

/-- The reconstructed chain always starts at the chosen end index. -/
theorem buildChain_head (table : List DpEntry) (fuel idx : ℕ)
    (h : 0 < fuel) :
    ((buildChain table fuel idx).1).head? = some idx := by
  cases fuel with
  | zero => omega
  | succ f =>
    simp only [buildChain]
    split <;> rfl

/-- The DP-table construction appends exactly one entry per step. -/
theorem dpTableAux_length (frags : List StreamFragment)
    (w : StreamScoringWeights) (ls : List (Finset String)) (sqrt : ℚ → ℚ) :
    ∀ (k : ℕ) (table : List DpEntry),
      (dpTableAux frags w ls sqrt k table).length = table.length + k := by
  intro k
  induction k with
  | zero => intro t; simp [dpTableAux]
  | succ k ih =>
    intro t
    rw [dpTableAux, ih]
    simp
    omega

/-- The DP table has one entry per fragment. -/
theorem dpTable_length (frags : List StreamFragment)
    (w : StreamScoringWeights) (ls : List (Finset String)) (sqrt : ℚ → ℚ) :
    (dpTable frags w ls sqrt).length = frags.length := by
  simp [dpTable, dpTableAux_length]

/-- Concrete evaluation of find_best_path on the tie pair: both fragments
score 10, no edge connects them, and the path ends at index 1 — the
larger-offset fragment. -/
theorem eval_fbp_pair :
    find_best_path [fragA, fragB] weightsDefault [∅, ∅] ratSqrt =
      some ⟨[1], [], 10⟩ := by
  norm_num [find_best_path, dpTable, dpTableAux, dpInner, chooseBest,
    chooseBestAux, buildChain, List.enum, List.enumFrom, fragA, fragB,
    StreamFragment.from_bytes, StreamFragment.total_score,
    StreamFragment.end_offset, FragmentScore.default, weightsDefault]

/-- Counterexample to C1: with two equal-score candidates for the path end
(DP scores [10, 10]) the assembler returns the path ending at index 1 — the
fragment with the LARGER offset — where the claim requires the smaller
offset (index 0). -/
theorem C1_counterexample :
    dpBestScores [fragA, fragB] weightsDefault [∅, ∅] ratSqrt = [10, 10]
    ∧ (find_best_path [fragA, fragB] weightsDefault [∅, ∅] ratSqrt).map
        PathResult.indices = some [1]
    ∧ fragA.offset < fragB.offset := by
  refine ⟨?_, ?_, ?_⟩
  · norm_num [dpBestScores, dpTable, dpTableAux, dpInner, fragA, fragB,
      StreamFragment.from_bytes, StreamFragment.total_score,
      StreamFragment.end_offset, FragmentScore.default, weightsDefault]
  · rw [eval_fbp_pair]
    rfl
  · norm_num [fragA, fragB, StreamFragment.from_bytes]

/-- C1 (amended): when candidates for the path end have equal DP score, the
assembler picks the one with the LARGER index — hence the larger joining
offset, the latest fragment in offset order — because `max_by` keeps the
last maximum; edge_score is not consulted.  Formally: the returned path ends
at an index i whose DP score s dominates every entry, strictly dominating
every entry at an index above i. -/
theorem C1_amended_tiebreak (frags : List StreamFragment)
    (w : StreamScoringWeights) (ls : List (Finset String)) (sqrt : ℚ → ℚ)
    (p : PathResult) (h : find_best_path frags w ls sqrt = some p) :
    ∃ i s, p.indices.getLast? = some i ∧
      (dpBestScores frags w ls sqrt).get? i = some s ∧
      (∀ j t, (dpBestScores frags w ls sqrt).get? j = some t → t ≤ s) ∧
      (∀ j t, i < j → (dpBestScores frags w ls sqrt).get? j = some t →
        t < s) := by
  simp only [find_best_path] at h
  split at h
  · exact absurd h (by simp)
  · rename_i hlen
    split at h
    · exact absurd h (by simp)
    · rename_i pr bi ts hcb
      have hp := Option.some.inj h
      have hspec := chooseBest_spec _ bi ts hcb
      have hbi : bi < (dpTable frags w ls sqrt).length := by
        have h1 := hspec.1
        have := List.get?_eq_some.mp h1
        obtain ⟨hb, _⟩ := this
        simpa using hb
      refine ⟨bi, ts, ?_, hspec.1, hspec.2.1, fun j t hij hj =>
        hspec.2.2 j t hij hj⟩
      rw [← hp]
      show ((buildChain (dpTable frags w ls sqrt)
        (dpTable frags w ls sqrt).length bi).1.reverse).getLast? = some bi
      rw [← List.head?_reverse, List.reverse_reverse]
      exact buildChain_head _ _ _ (by omega)

/-- Witness for the amended C1 at the concrete tie pair: the returned path
ends at index 1, whose score 10 weakly dominates both entries and strictly
dominates all entries above index 1 (there are none). -/
theorem C1_amended_tiebreak_witness :
    ∃ i s, ([1] : List ℕ).getLast? = some i ∧
      (dpBestScores [fragA, fragB] weightsDefault [∅, ∅] ratSqrt).get? i =
        some s ∧
      (∀ j t, (dpBestScores [fragA, fragB] weightsDefault [∅, ∅]
        ratSqrt).get? j = some t → t ≤ s) ∧
      (∀ j t, i < j → (dpBestScores [fragA, fragB] weightsDefault [∅, ∅]
        ratSqrt).get? j = some t → t < s) :=
  C1_amended_tiebreak [fragA, fragB] weightsDefault [∅, ∅] ratSqrt
    ⟨[1], [], 10⟩ eval_fbp_pair

/-- The inner DP loop only ever installs a predecessor index strictly below
the loop bound. -/
theorem dpInner_prev (frags : List StreamFragment) (w : StreamScoringWeights)
    (ls : List (Finset String)) (sqrt : ℚ → ℚ) (table : List DpEntry)
    (i : ℕ) :
    ∀ (jp1 lb : ℕ) (st : DpEntry) (j : ℕ),
      (dpInner frags w ls sqrt table i jp1 lb st).2.1 = some j →
      st.2.1 = some j ∨ j < jp1 := by
  intro jp1
  induction jp1 with
  | zero => intro lb st j h; exact Or.inl h
  | succ jj ih =>
    intro lb st j h
    simp only [dpInner] at h
    split at h
    · exact Or.inl h
    · split at h
      · exact Or.inl h
      · rcases ih _ _ j h with hst' | hlt
        · revert hst'
          split
          · split
            · intro hst'
              have : jj = j := by
                simpa using hst'
              exact Or.inr (by omega)
            · intro hst'; exact Or.inl hst'
          · intro hst'; exact Or.inl hst'
        · exact Or.inr (by omega)

/-- The DP-table construction preserves the invariant that every stored
predecessor index is strictly below its own position. -/
theorem dpTableAux_prev_lt (frags : List StreamFragment)
    (w : StreamScoringWeights) (ls : List (Finset String)) (sqrt : ℚ → ℚ) :
    ∀ (k : ℕ) (table : List DpEntry),
      (∀ i e, table.get? i = some e → ∀ j, e.2.1 = some j → j < i) →
      ∀ i e, (dpTableAux frags w ls sqrt k table).get? i = some e →
        ∀ j, e.2.1 = some j → j < i := by
  intro k
  induction k with
  | zero => intro t ht; simpa [dpTableAux] using ht
  | succ k ih =>
    intro t ht
    rw [dpTableAux]
    apply ih
    intro i e hi j hj
    by_cases hlt : i < t.length
    · rw [List.get?_append hlt] at hi
      exact ht i e hi j hj
    · have hlen : i < t.length + 1 := by
        obtain ⟨hb, _⟩ := List.get?_eq_some.mp hi
        simpa using hb
      have hieq : i = t.length := by omega
      subst hieq
      rw [List.get?_concat_length] at hi
      have he := Option.some.inj hi
      rcases dpInner_prev frags w ls sqrt t t.length t.length 0 _ j
          (by rw [he]; exact hj) with hst | hlt2
      · exact absurd hst (by simp)
      · exact hlt2

/-- Every predecessor pointer in the DP table points strictly backwards. -/
theorem dpTable_prev_lt (frags : List StreamFragment)
    (w : StreamScoringWeights) (ls : List (Finset String)) (sqrt : ℚ → ℚ) :
    ∀ i e, (dpTable frags w ls sqrt).get? i = some e →
      ∀ j, e.2.1 = some j → j < i :=
  dpTableAux_prev_lt frags w ls sqrt frags.length []
    (fun i e hi => absurd hi (by simp))

/-- Chain reconstruction along strictly backward pointers yields a strictly
decreasing list of in-bounds indices bounded by the start index. -/
theorem buildChain_props (table : List DpEntry)
    (hprev : ∀ i e, table.get? i = some e → ∀ j, e.2.1 = some j → j < i) :
    ∀ (fuel idx : ℕ), idx < table.length → idx < fuel →
      (buildChain table fuel idx).1.Pairwise (fun a b => b < a) ∧
      ∀ x ∈ (buildChain table fuel idx).1, x ≤ idx ∧ x < table.length := by
  intro fuel
  induction fuel with
  | zero => intro idx _ h; omega
  | succ f ih =>
    intro idx hidx hfuel
    have hget : table.get? idx = some ((table.get? idx).getD default) := by
      cases hg : table.get? idx with
      | none =>
        rw [List.get?_eq_none] at hg
        omega
      | some e => simp [hg]
    simp only [buildChain]
    split
    · rename_i val prev e heq
      have hp : prev < idx := by
        apply hprev idx _ hget prev
        rw [heq]
      have hrec := ih prev (by omega) (by omega)
      constructor
      · refine List.pairwise_cons.mpr ⟨?_, hrec.1⟩
        intro x hx
        have := (hrec.2 x hx).1
        omega
      · intro x hx
        rcases List.mem_cons.mp hx with rfl | hx
        · exact ⟨Nat.le_refl _, hidx⟩
        · have := hrec.2 x hx
          exact ⟨by omega, this.2⟩
    · constructor
      · simp
      · intro x hx
        simp only [List.mem_singleton] at hx
        subst hx
        exact ⟨Nat.le_refl _, hidx⟩

/-- Every path returned by find_best_path is a nonempty strictly increasing
list of in-bounds fragment indices. -/
theorem find_best_path_inv (frags : List StreamFragment)
    (w : StreamScoringWeights) (ls : List (Finset String)) (sqrt : ℚ → ℚ)
    (p : PathResult) (h : find_best_path frags w ls sqrt = some p) :
    p.indices ≠ [] ∧ p.indices.Pairwise (· < ·) ∧
    ∀ i ∈ p.indices, i < frags.length := by
  simp only [find_best_path] at h
  split at h
  · exact absurd h (by simp)
  · rename_i hlen
    split at h
    · exact absurd h (by simp)
    · rename_i pr bi ts hcb
      have hp := Option.some.inj h
      have hspec := chooseBest_spec _ bi ts hcb
      have hbi : bi < (dpTable frags w ls sqrt).length := by
        obtain ⟨hb, _⟩ := List.get?_eq_some.mp hspec.1
        simpa using hb
      have hprops := buildChain_props _ (dpTable_prev_lt frags w ls sqrt)
        (dpTable frags w ls sqrt).length bi hbi (by omega)
      have hhead := buildChain_head (dpTable frags w ls sqrt)
        (dpTable frags w ls sqrt).length bi (by omega)
      refine ⟨?_, ?_, ?_⟩
      · rw [← hp]
        intro hnil
        simp only at hnil
        rw [List.reverse_eq_nil_iff] at hnil
        rw [hnil] at hhead
        exact absurd hhead (by simp)
      · rw [← hp]
        show ((buildChain (dpTable frags w ls sqrt)
          (dpTable frags w ls sqrt).length bi).1.reverse).Pairwise (· < ·)
        rw [List.pairwise_reverse]
        exact hprops.1
      · intro i hi
        rw [← hp] at hi
        simp only at hi
        rw [List.mem_reverse] at hi
        have := (hprops.2 i hi).2
        rwa [dpTable_length] at this

/-- Indices of an enumeration starting at n are at least n. -/
theorem enumFrom_fst_lb {α : Type} :
    ∀ (l : List α) (n : ℕ) (q : ℕ × α), q ∈ List.enumFrom n l → n ≤ q.1 := by
  intro l
  induction l with
  | nil => intro n q h; simp [List.enumFrom] at h
  | cons a t ih =>
    intro n q h
    rw [show List.enumFrom n (a :: t) = (n, a) :: List.enumFrom (n + 1) t
      from rfl, List.mem_cons] at h
    rcases h with rfl | h
    · exact Nat.le_refl n
    · exact Nat.le_trans (by omega) (ih (n + 1) q h)

/-- The entries of an enumeration with first component i form the singleton
holding the i-th element (or nothing when out of range). -/
theorem enumFrom_filter_fst_eq {α : Type} :
    ∀ (l : List α) (n i : ℕ), n ≤ i →
      (List.enumFrom n l).filter (fun q => decide (q.1 = i)) =
        ((l.get? (i - n)).map (fun a => (i, a))).toList := by
  intro l
  induction l with
  | nil => intro n i _; simp [List.enumFrom]
  | cons a t ih =>
    intro n i hni
    rw [show List.enumFrom n (a :: t) = (n, a) :: List.enumFrom (n + 1) t
      from rfl, List.filter_cons]
    by_cases hq : n = i
    · subst hq
      have hrest : (List.enumFrom (n + 1) t).filter
          (fun q => decide (q.1 = n)) = [] := by
        rw [List.filter_eq_nil]
        intro q hq2
        have := enumFrom_fst_lb t (n + 1) q hq2
        simp only [decide_eq_true_eq]
        omega
      simp [hrest]
    · have hstep : i - n = (i - (n + 1)) + 1 := by omega
      simp only [decide_eq_true_eq, hq, if_false]
      rw [ih (n + 1) i (by omega), hstep, List.get?_cons_succ]

/-- Removing one fresh index from the exclusion set of the complement filter
splits off exactly the element at that index. -/
theorem remove_one_perm {α : Type} (l : List α) (i : ℕ) (I' : List ℕ)
    (hni : i ∉ I') :
    List.Perm ((l.enum.filter (fun q => !(decide (q.1 ∈ I')))).map Prod.snd)
      ((l.get? i).toList ++
        (l.enum.filter (fun q => !(decide (q.1 ∈ i :: I')))).map
          Prod.snd) := by
  have hsplit := List.filter_append_perm (fun q => decide (q.1 = i))
    (l.enum.filter (fun q => !(decide (q.1 ∈ I'))))
  have h1 : (l.enum.filter (fun q => !(decide (q.1 ∈ I')))).filter
      (fun q => decide (q.1 = i)) =
      l.enum.filter (fun q => decide (q.1 = i)) := by
    rw [List.filter_filter]
    apply List.filter_congr
    intro q _
    by_cases hq : q.1 = i
    · simp [hq, hni]
    · simp [hq]
  have h2 : (l.enum.filter (fun q => !(decide (q.1 ∈ I')))).filter
      (fun q => !(decide (q.1 = i))) =
      l.enum.filter (fun q => !(decide (q.1 ∈ i :: I'))) := by
    rw [List.filter_filter]
    apply List.filter_congr
    intro q _
    by_cases hq : q.1 = i <;> by_cases hq2 : q.1 ∈ I' <;>
      simp [hq, hq2, List.mem_cons]
  have h3 : l.enum.filter (fun q => decide (q.1 = i)) =
      ((l.get? i).map (fun a => (i, a))).toList := by
    have := enumFrom_filter_fst_eq l 0 i (Nat.zero_le i)
    simpa [List.enum] using this
  have h4 : (((l.enum.filter (fun q => !(decide (q.1 ∈ I')))).filter
        (fun q => decide (q.1 = i))) ++
      ((l.enum.filter (fun q => !(decide (q.1 ∈ I')))).filter
        (fun q => !(decide (q.1 = i))))).map Prod.snd =
      (l.get? i).toList ++
        (l.enum.filter (fun q => !(decide (q.1 ∈ i :: I')))).map Prod.snd := by
    rw [List.map_append, h1, h2, h3]
    congr 1
    cases hg : l.get? i <;> simp
  exact h4 ▸ (hsplit.map Prod.snd).symm

/-- The fragments selected at a strictly increasing list of indices together
with the fragments at the remaining indices form a permutation of the pool:
the index-based removal loses nothing and duplicates nothing. -/
theorem select_remove_perm {α : Type} (l : List α) :
    ∀ I : List ℕ, I.Pairwise (· < ·) →
      List.Perm
        (I.filterMap (fun i => l.get? i) ++
          (l.enum.filter (fun q => !(decide (q.1 ∈ I)))).map Prod.snd) l := by
  have hswap : ∀ X A R : List α,
      List.Perm (X ++ (A ++ R)) (A ++ (X ++ R)) := by
    intro X A R
    have h2 := List.Perm.append_right R (@List.perm_append_comm _ X A)
    rw [← List.append_assoc, ← List.append_assoc]
    exact h2
  intro I
  induction I with
  | nil =>
    intro _
    simp [List.enum_map_snd]
  | cons i I' ih =>
    intro hI
    rw [List.pairwise_cons] at hI
    obtain ⟨hilt, hI'⟩ := hI
    have hni : i ∉ I' := fun hmem => absurd (hilt i hmem) (lt_irrefl i)
    have hfm : (i :: I').filterMap (fun j => l.get? j) =
        (l.get? i).toList ++ I'.filterMap (fun j => l.get? j) := by
      cases hg : l.get? i with
      | none =>
        have hg2 : l[i]? = none := by rw [← List.get?_eq_getElem?]; exact hg
        simp [List.filterMap_cons, hg, hg2]
      | some a =>
        have hg2 : l[i]? = some a := by rw [← List.get?_eq_getElem?]; exact hg
        simp [List.filterMap_cons, hg, hg2]
    rw [hfm, List.append_assoc]
    refine (hswap _ _ _).trans ?_
    refine (List.Perm.append_left _ (remove_one_perm l i I' hni).symm).trans
      (ih hI')

/-- Selection along a strictly increasing index list out of a list whose
get?-views are monotone yields a pairwise-monotone list. -/
theorem pairwise_filterMap_get {α : Type} (l : List α) (P : α → α → Prop)
    (hmono : ∀ i j a b, i < j → l.get? i = some a → l.get? j = some b →
      P a b) :
    ∀ I : List ℕ, I.Pairwise (· < ·) →
      (I.filterMap (fun i => l.get? i)).Pairwise P := by
  intro I
  induction I with
  | nil => intro _; simp
  | cons i I' ih =>
    intro hI
    rw [List.pairwise_cons] at hI
    obtain ⟨hlt, hI'⟩ := hI
    cases hg : l.get? i with
    | none =>
      simp only [List.filterMap_cons, hg]
      exact ih hI'
    | some a =>
      simp only [List.filterMap_cons, hg]
      refine List.pairwise_cons.mpr ⟨?_, ih hI'⟩
      intro b hb
      obtain ⟨j, hj, hjb⟩ := List.mem_filterMap.mp hb
      exact hmono i j a b (hlt j hj) hg hjb

/-- In a list sorted by offset, positions compare monotonically. -/
theorem sorted_offset_mono (l : List StreamFragment)
    (hs : l.Sorted (fun a b => a.offset ≤ b.offset)) :
    ∀ (i j : ℕ) (a b : StreamFragment), i < j → l.get? i = some a →
      l.get? j = some b → a.offset ≤ b.offset := by
  intro i j a b hij ha hb
  obtain ⟨hi, ha2⟩ := List.get?_eq_some.mp ha
  obtain ⟨hj, hb2⟩ := List.get?_eq_some.mp hb
  have hrel := List.Sorted.rel_get_of_lt hs
    (show (⟨i, hi⟩ : Fin l.length) < ⟨j, hj⟩ from hij)
  rw [ha2, hb2] at hrel
  exact hrel

/-- Every stream accumulated by the assembly loop has non-decreasing
fragment offsets (given that the incoming accumulator does). -/
theorem assembleLoop_pairwise (w : StreamScoringWeights) (sqrt : ℚ → ℚ) :
    ∀ (k : ℕ) (remaining : List StreamFragment)
      (streams : List AssembledStream),
      (∀ s ∈ streams,
        s.fragments.Pairwise (fun a b => a.offset ≤ b.offset)) →
      ∀ s ∈ assembleLoop w sqrt k remaining streams,
        s.fragments.Pairwise (fun a b => a.offset ≤ b.offset) := by
  intro k
  induction k with
  | zero => intro rem streams hstr; simpa [assembleLoop] using hstr
  | succ k ih =>
    intro rem streams hstr
    simp only [assembleLoop]
    split
    · exact hstr
    · split
      · exact hstr
      · rename_i path hpath
        split
        · exact hstr
        · apply ih
          intro s hs
          rw [List.mem_append] at hs
          rcases hs with hs | hs
          · exact hstr s hs
          · simp only [List.mem_singleton] at hs
            subst hs
            have hinv := find_best_path_inv _ _ _ _ _ hpath
            have hsorted :
                (rem.insertionSort
                  (fun a b => a.offset ≤ b.offset)).Sorted
                  (fun a b => a.offset ≤ b.offset) :=
              List.sorted_insertionSort _ _
            show (build_stream path _).fragments.Pairwise _
            simp only [build_stream]
            exact pairwise_filterMap_get _ _ (sorted_offset_mono _ hsorted)
              path.indices hinv.2.1

/-- The fragments of all streams accumulated by the assembly loop form a
sub-multiset of the accumulated streams' fragments plus the pool. -/
theorem assembleLoop_subperm (w : StreamScoringWeights) (sqrt : ℚ → ℚ) :
    ∀ (k : ℕ) (remaining : List StreamFragment)
      (streams : List AssembledStream),
      List.Subperm
        (((assembleLoop w sqrt k remaining streams).map
          AssembledStream.fragments).flatten)
        ((streams.map AssembledStream.fragments).flatten ++ remaining) := by
  intro k
  induction k with
  | zero =>
    intro rem streams
    simp only [assembleLoop]
    exact (List.sublist_append_left _ _).subperm
  | succ k ih =>
    intro rem streams
    simp only [assembleLoop]
    split
    · exact (List.sublist_append_left _ _).subperm
    · split
      · exact (List.sublist_append_left _ _).subperm
      · rename_i path hpath
        split
        · exact (List.sublist_append_left _ _).subperm
        · refine (ih _ _).trans (List.Perm.subperm ?_)
          have hinv := find_best_path_inv _ _ _ _ _ hpath
          have hperm : List.Perm
              ((build_stream path (rem.insertionSort
                  (fun a b => a.offset ≤ b.offset))).fragments ++
                ((rem.insertionSort
                  (fun a b => a.offset ≤ b.offset)).enum.filter
                  (fun q => !(decide (q.1 ∈ path.indices)))).map Prod.snd)
              rem := by
            have h1 := select_remove_perm
              (rem.insertionSort (fun a b => a.offset ≤ b.offset))
              path.indices hinv.2.1
            exact h1.trans (List.perm_insertionSort _ rem)
          have hmap : ((streams ++ [build_stream path
              (rem.insertionSort (fun a b => a.offset ≤ b.offset))]).map
              AssembledStream.fragments).flatten =
              (streams.map AssembledStream.fragments).flatten ++
                ((build_stream path (rem.insertionSort
                  (fun a b => a.offset ≤ b.offset))).fragments ++ []) := by
            simp
          rw [hmap, List.append_nil, List.append_assoc]
          exact List.Perm.append_left _ hperm

/-- C4: for every input fragment list, weights, and stream cap, every
AssembledStream returned by assemble_streams_with_weights lists its
fragments in non-decreasing offset order, and no fragment occurrence of the
input pool is placed into two different returned streams (the concatenation
of all returned streams' fragments is a sub-multiset of the input pool). -/
theorem C4_stream_invariants (frags : List StreamFragment)
    (w : StreamScoringWeights) (cap : Option ℕ) (sqrt : ℚ → ℚ) :
    (∀ s ∈ assemble_streams_with_weights frags w cap sqrt,
      s.fragments.Pairwise (fun a b => a.offset ≤ b.offset)) ∧
    List.Subperm
      (((assemble_streams_with_weights frags w cap sqrt).map
        AssembledStream.fragments).flatten) frags := by
  constructor
  · intro s hs
    simp only [assemble_streams_with_weights] at hs
    split at hs
    · exact absurd hs (by simp)
    · exact assembleLoop_pairwise w sqrt _ _ _ (by simp) s hs
  · simp only [assemble_streams_with_weights]
    split
    · simp
    · have := assembleLoop_subperm w sqrt (max (cap.getD 3) 1) frags []
      simpa using this

/-- Concrete evaluation: the tie pair is already sorted by offset. -/
theorem eval_sorted_pair :
    [fragA, fragB].insertionSort (fun a b => a.offset ≤ b.offset) =
      [fragA, fragB] := by
  norm_num [fragA, fragB, StreamFragment.from_bytes]

/-- Concrete evaluation of find_best_path on the singleton pool. -/
theorem eval_fbp_single :
    find_best_path [fragA] weightsDefault [∅] ratSqrt =
      some ⟨[0], [], 10⟩ := by
  norm_num [find_best_path, dpTable, dpTableAux, dpInner, chooseBest,
    chooseBestAux, buildChain, List.enum, List.enumFrom, fragA,
    StreamFragment.from_bytes, StreamFragment.total_score,
    FragmentScore.default, weightsDefault]

/-- Concrete evaluation: the singleton pool is already sorted. -/
theorem eval_sorted_single :
    [fragA].insertionSort (fun a b => a.offset ≤ b.offset) = [fragA] := by
  simp

/-- Concrete evaluation of the link sets of the tie pair. -/
theorem eval_links_pair :
    [fragA, fragB].map (fun f => f.links.toFinset) = [∅, ∅] := by
  simp [fragA, fragB, StreamFragment.from_bytes]

/-- Concrete evaluation of the link sets of the singleton pool. -/
theorem eval_links_single :
    [fragA].map (fun f => f.links.toFinset) = [∅] := by
  simp [fragA, StreamFragment.from_bytes]

/-- Concrete evaluation of the index-removal step after the first stream. -/
theorem eval_filter_pair :
    ([fragA, fragB].enum.filter
      (fun q => !(decide (q.1 ∈ ([1] : List ℕ))))).map Prod.snd =
      [fragA] := by
  simp [List.enum, List.enumFrom]

/-- Concrete evaluation of the index-removal step after the second stream. -/
theorem eval_filter_single :
    ([fragA].enum.filter
      (fun q => !(decide (q.1 ∈ ([0] : List ℕ))))).map Prod.snd = [] := by
  simp [List.enum, List.enumFrom]

/-- Concrete evaluation of the full assembler on the tie pair: two
single-fragment streams, the larger-offset fragment first. -/
theorem eval_assemble_pair :
    assemble_streams_with_weights [fragA, fragB] weightsDefault none
      ratSqrt =
      [build_stream ⟨[1], [], 10⟩ [fragA, fragB],
        build_stream ⟨[0], [], 10⟩ [fragA]] := by
  simp only [assemble_streams_with_weights, Option.getD]
  simp only [assembleLoop, List.isEmpty_cons, eval_sorted_pair,
    eval_links_pair, eval_fbp_pair, eval_filter_pair, eval_sorted_single,
    eval_links_single, eval_fbp_single, eval_filter_single,
    List.isEmpty_nil, Bool.false_eq_true, if_false, if_true,
    List.nil_append]
  norm_num

/-- Witness for C4: the first returned stream on the concrete pair is a
member of the output and its fragments are in non-decreasing offset order. -/
theorem C4_stream_invariants_witness :
    build_stream ⟨[1], [], 10⟩ [fragA, fragB] ∈
      assemble_streams_with_weights [fragA, fragB] weightsDefault none
        ratSqrt
    ∧ (build_stream ⟨[1], [], 10⟩ [fragA, fragB]).fragments.Pairwise
        (fun a b => a.offset ≤ b.offset) := by
  have hmem : build_stream ⟨[1], [], 10⟩ [fragA, fragB] ∈
      assemble_streams_with_weights [fragA, fragB] weightsDefault none
        ratSqrt := by
    rw [eval_assemble_pair]
    exact List.mem_cons_self _ _
  exact ⟨hmem,
    (C4_stream_invariants [fragA, fragB] weightsDefault none ratSqrt).1 _
      hmem⟩
